import Mathlib

/-!
Verification of the query-staff Text2SQL pipeline.

This file gives a shallow embedding of the core logic of the repository:

* `src/database.py`: comment stripping (`_strip_comments`), the
  multiple-statement heuristic (`_contains_multiple_statements`), the lexical
  safety validator (`validate_sql`), keyword extraction (`_extract_keywords`)
  and table ranking (`_rank_tables`), and the validate-then-execute wrapper
  (`execute_readonly_query`, with the database call abstracted as a function
  argument).
* `src/agent.py`: the per-run state (`AgentStateL`), the LangGraph node
  functions, the routing functions, the compiled graph as a deterministic
  step function on configurations (`step`), and the approved-SQL entry point
  (`run_approved_query`).

Strings are modelled as `List Char` (`Str`).  Python regular expressions are
translated to recursive character-list functions with the same matching
semantics on ASCII input.  The external model (the SQL generator) and the
database are abstracted as an `Env` of functions; all safety and control-flow
logic is embedded from the source.
-/

abbrev Str := List Char

deriving instance DecidableEq for Except

/-- ASCII whitespace, as recognised by Python `str.strip` and the regex
class `\s` on ASCII text: space, tab, newline, carriage return, vertical
tab, form feed. -/
def pyIsSpace (c : Char) : Bool :=
  c = ' ' ∨ c = '\t' ∨ c = '\n' ∨ c = '\r' ∨ c = '\x0b' ∨ c = '\x0c'

/-- Python `str.rstrip()` on ASCII whitespace. -/
def pyRStrip (l : Str) : Str := (l.reverse.dropWhile pyIsSpace).reverse

/-- Python `str.strip()` on ASCII whitespace. -/
def pyStrip (l : Str) : Str := pyRStrip (l.dropWhile pyIsSpace)

/-- Scan for the first occurrence of the two-character close marker of a
block comment; `some rest` returns everything after that occurrence.  This is
the search performed by the reluctant part of the pattern used in
`_strip_comments` for block comments. -/
def findClose : List Char → Option (List Char)
  | [] => none
  | [_] => none
  | c :: d :: rest => if c = '*' ∧ d = '/' then some rest else findClose (d :: rest)

theorem findClose_length : ∀ l m, findClose l = some m → m.length + 2 ≤ l.length
  | [], _, h => by simp [findClose] at h
  | [_], _, h => by simp [findClose] at h
  | c :: d :: rest, m, h => by
    rw [findClose] at h
    split at h
    · cases h; simp
    · have := findClose_length (d :: rest) m h
      simp at this ⊢; omega

/-- Fuelled worker for `stripBlock`; the fuel keeps the recursion structural
(the jump past a matched comment is not a structural descent) so that the
function evaluates by kernel reduction.  `stripBlock` always supplies
sufficient fuel. -/
def stripBlockF : Nat → List Char → List Char
  | 0, l => l
  | _ + 1, [] => []
  | _ + 1, [c] => [c]
  | fuel + 1, c :: d :: rest =>
    if c = '/' ∧ d = '*' then
      match findClose rest with
      | some rest2 => ' ' :: stripBlockF fuel rest2
      | none => c :: d :: rest
    else c :: stripBlockF fuel (d :: rest)

/-- First substitution of `_strip_comments` in `database.py`: replace each
(leftmost, shortest) block comment with a single space; an unterminated
opener is left in place, and then no further match exists. -/
def stripBlock (l : List Char) : List Char := stripBlockF l.length l

theorem stripBlockF_congr : ∀ f g l, l.length ≤ f → l.length ≤ g →
    stripBlockF f l = stripBlockF g l := by
  intro f
  induction f with
  | zero =>
    intro g l hf _
    have : l = [] := by cases l <;> simp_all
    subst this; cases g <;> rfl
  | succ f ih =>
    intro g l hf hg
    match l, g with
    | [], g => cases g <;> rfl
    | [c], g + 1 => rfl
    | [c], 0 => simp at hg
    | c :: d :: rest, 0 => simp at hg
    | c :: d :: rest, g + 1 =>
      simp only [stripBlockF]
      split
      · cases hfc : findClose rest with
        | none => rfl
        | some rest2 =>
          have hlen := findClose_length rest rest2 hfc
          simp only [List.length_cons] at hf hg
          show ' ' :: stripBlockF f rest2 = ' ' :: stripBlockF g rest2
          rw [ih g rest2 (by omega) (by omega)]
      · simp only [List.length_cons] at hf hg
        rw [ih g (d :: rest) (by simp; omega) (by simp; omega)]

theorem stripBlock_cons₂ (c d : Char) (rest : List Char) :
    stripBlock (c :: d :: rest) =
      if c = '/' ∧ d = '*' then
        match findClose rest with
        | some rest2 => ' ' :: stripBlock rest2
        | none => c :: d :: rest
      else c :: stripBlock (d :: rest) := by
  show stripBlockF (rest.length + 1 + 1) (c :: d :: rest) = _
  simp only [stripBlockF]
  split
  · cases hfc : findClose rest with
    | none => rfl
    | some rest2 =>
      have hlen := findClose_length rest rest2 hfc
      show ' ' :: stripBlockF (rest.length + 1) rest2 = ' ' :: stripBlock rest2
      rw [stripBlockF_congr (rest.length + 1) rest2.length rest2 (by omega) le_rfl]
      rfl
  · rfl

mutual
/-- Second substitution of `_strip_comments`: replace each `--`-to-end-of-line
comment with a single space. -/
def stripDash : List Char → List Char
  | [] => []
  | [c] => [c]
  | c :: d :: rest =>
    if c = '-' ∧ d = '-' then ' ' :: skipDash rest else c :: stripDash (d :: rest)

/-- Skip inside a `--` comment: drop characters up to (but not including) the
next newline, then resume. -/
def skipDash : List Char → List Char
  | [] => []
  | c :: rest => if c = '\n' then '\n' :: stripDash rest else skipDash rest
end

mutual
/-- Third substitution of `_strip_comments`: replace each `#`-to-end-of-line
comment with a single space. -/
def stripHash : List Char → List Char
  | [] => []
  | c :: rest => if c = '#' then ' ' :: skipHash rest else c :: stripHash rest

/-- Skip inside a `#` comment: drop characters up to (but not including) the
next newline, then resume. -/
def skipHash : List Char → List Char
  | [] => []
  | c :: rest => if c = '\n' then '\n' :: stripHash rest else skipHash rest
end

/-- `_strip_comments` from `database.py`: strip block comments, then `--`
line comments, then `#` line comments, then surrounding whitespace. -/
def _strip_comments (sql : Str) : Str :=
  pyStrip (stripHash (stripDash (stripBlock sql)))

/-- `_contains_multiple_statements` from `database.py`. -/
def _contains_multiple_statements (sql : Str) : Bool :=
  let trimmed := pyStrip sql
  if trimmed = [] then false
  else
    let t := if trimmed.getLast? = some ';' then pyRStrip trimmed.dropLast else trimmed
    t.contains ';'

/-- Regex word characters on ASCII: letters, digits, underscore. -/
def isWordChar (c : Char) : Bool := c.isAlpha ∨ c.isDigit ∨ c = '_'

/-- Characters matched by the class of `_WORD_PATTERN` (`[a-z_]` with
IGNORECASE): ASCII letters and underscore. -/
def isTokenChar (c : Char) : Bool := c.isAlpha ∨ c = '_'

/-- Fuelled worker for `wordRuns` (fuel keeps the recursion structural so it
evaluates by kernel reduction). -/
def wordRunsF : Nat → List Char → List (List Char)
  | 0, _ => []
  | _ + 1, [] => []
  | fuel + 1, c :: rest =>
    if isWordChar c then
      (c :: rest.takeWhile isWordChar) :: wordRunsF fuel (rest.dropWhile isWordChar)
    else wordRunsF fuel rest

/-- Maximal runs of word characters of a string.  `_WORD_PATTERN.findall`
returns exactly those runs that consist solely of letters/underscores (a run
containing a digit has no word boundary inside it, so it yields no match). -/
def wordRuns (l : List Char) : List (List Char) := wordRunsF l.length l

/-- The lower-cased matches of `_WORD_PATTERN.findall` on a string. -/
def sqlWords (l : Str) : List Str :=
  ((wordRuns l).filter (fun r => r.all isTokenChar)).map (List.map Char.toLower)

/-- `_LIMIT_PATTERN.search`: some whole word of the string equals `limit`
case-insensitively. -/
def hasLimitWord (l : Str) : Bool :=
  (wordRuns l).any (fun r => r.map Char.toLower = "limit".data)

/-- Case-insensitive literal match of a (lower-case) pattern at the start of
the input; returns the remainder on success. -/
def ciMatch : List Char → List Char → Option (List Char)
  | [], l => some l
  | _ :: _, [] => none
  | p :: ps, c :: cs => if c.toLower = p then ciMatch ps cs else none

/-- One alternative of the aggregate pattern: an aggregate-function name
followed by optional whitespace and an opening parenthesis. -/
def aggAfter (s : Str) : Bool :=
  (["count".data, "sum".data, "avg".data, "min".data, "max".data]).any (fun a =>
    match ciMatch a s with
    | some s6 => (s6.dropWhile pyIsSpace).head? = some '('
    | none => false)

/-- `_AGGREGATE_ONLY_PATTERN.match`: the statement starts (after optional
whitespace) with `select`, mandatory whitespace, an optional `distinct` with
mandatory trailing whitespace, and an aggregate call opener. -/
def matchAggregateOnly (n : Str) : Bool :=
  match ciMatch ("select".data) (n.dropWhile pyIsSpace) with
  | none => false
  | some s2 =>
    match s2 with
    | [] => false
    | c :: _ =>
      if pyIsSpace c then
        let s3 := s2.dropWhile pyIsSpace
        let s5 :=
          match ciMatch ("distinct".data) s3 with
          | some s4 =>
            match s4 with
            | [] => s3
            | d :: _ => if pyIsSpace d then s4.dropWhile pyIsSpace else s3
          | none => s3
        aggAfter s5
      else false

/-- `_BANNED_KEYWORDS` from `database.py`, listed in the sorted order used by
`sorted(_BANNED_KEYWORDS.intersection(words))`. -/
def _BANNED_KEYWORDS : List Str :=
  ["alter".data, "call".data, "create".data, "delete".data, "drop".data,
   "grant".data, "insert".data, "lock".data, "rename".data, "replace".data,
   "revoke".data, "set".data, "truncate".data, "unlock".data, "update".data,
   "use".data]

/-- The sorted list of banned keywords occurring as whole words of the
statement (`sorted(_BANNED_KEYWORDS.intersection(words))`). -/
def bannedUsed (n : Str) : List Str :=
  _BANNED_KEYWORDS.filter (fun k => (sqlWords n).contains k)

/-- The distinct reason codes of `SQLSafetyError` raised by `validate_sql`,
in source order of the raising sites. -/
inductive SQLSafetyErrorKind where
  | empty : SQLSafetyErrorKind
  | multipleStatements : SQLSafetyErrorKind
  | notSelect : SQLSafetyErrorKind
  | bannedKeyword : List Str → SQLSafetyErrorKind
  | unboundedResult : SQLSafetyErrorKind
deriving DecidableEq, Repr

/-- The message text carried by each `SQLSafetyError` in `database.py`. -/
def safetyMessage : SQLSafetyErrorKind → Str
  | .empty => "SQL is empty after comment stripping.".data
  | .multipleStatements => "Multiple SQL statements are not allowed.".data
  | .notSelect => "Only SELECT statements are allowed.".data
  | .bannedKeyword ks =>
      "Disallowed SQL keyword(s): ".data ++ (ks.intersperse ", ".data).flatten ++ ".".data
  | .unboundedResult => "Non-aggregate queries must include a LIMIT clause.".data

/-- `validate_sql` from `database.py`: the full safety pipeline.  Success
returns the comment-stripped, whitespace-trimmed statement. -/
def validate_sql (sql : Str) : Except SQLSafetyErrorKind Str :=
  let normalized := _strip_comments sql
  if normalized = [] then .error .empty
  else if _contains_multiple_statements normalized then .error .multipleStatements
  else if ¬ (("select".data).isPrefixOf (normalized.map Char.toLower)) then .error .notSelect
  else if bannedUsed normalized ≠ [] then .error (.bannedKeyword (bannedUsed normalized))
  else if ¬ (hasLimitWord normalized ∨ matchAggregateOnly normalized) then
    .error .unboundedResult
  else .ok normalized

/-- `_extract_keywords` from `database.py`: the lower-cased words of the
question longer than two characters (a set in the source; modelled as a list
used only through membership). -/
def _extract_keywords (text : Str) : List Str :=
  ((wordRuns text).filter (fun r => r.all isTokenChar && decide (2 < r.length))).map
    (List.map Char.toLower)

/-- The overlap score of `_rank_tables.score`: the number of distinct tokens
of the table name that occur among the question keywords
(`len(tokens.intersection(keywords))`). -/
def overlap (keywords : List Str) (name : Str) : Nat :=
  ((sqlWords name).dedup.filter (fun t => keywords.contains t)).length

/-- The ordering used by `sorted(table_names, key=score, reverse=True)` with
`score(name) = (overlap, -len(name))`: `a` may precede `b` iff the key of `a`
is lexicographically at least the key of `b`, i.e. higher overlap first and,
on equal overlap, shorter name first. -/
def rankRel (keywords : List Str) (a b : Str) : Prop :=
  overlap keywords b < overlap keywords a ∨
    (overlap keywords a = overlap keywords b ∧ a.length ≤ b.length)

instance (keywords : List Str) : DecidableRel (rankRel keywords) := fun a b => by
  unfold rankRel; exact inferInstance

instance (keywords : List Str) : IsTotal Str (rankRel keywords) :=
  ⟨by intro a b; unfold rankRel; omega⟩

instance (keywords : List Str) : IsTrans Str (rankRel keywords) :=
  ⟨by intro a b c; unfold rankRel; omega⟩

/-- `_rank_tables` from `database.py`: `sorted(table_names, key=score,
reverse=True)`.  Python `sorted` is a stable sort, and with `reverse=True` it
is the stable sort by descending key; `List.insertionSort` is stable, so with
`rankRel` it computes the same list. -/
def _rank_tables (table_names : List Str) (keywords : List Str) : List Str :=
  table_names.insertionSort (rankRel keywords)

/-- The table-selection logic of `get_schema_context` (`database.py`,
`selected_tables = ranked_tables[:max_tables] if ranked_tables else
table_names[:max_tables]`), with the catalog fetch abstracted as the
`table_names` argument (returned in alphabetical order by the
`ORDER BY table_name` query). -/
def selectTables (table_names : List Str) (keywords : List Str) (max_tables : Nat) : List Str :=
  let ranked := _rank_tables table_names keywords
  if ranked ≠ [] then ranked.take max_tables else table_names.take max_tables

/-- Table ranking as a function of the question text, composing
`_extract_keywords` with `_rank_tables` as `get_schema_context` does. -/
def rankForQuestion (user_query : Str) (table_names : List Str) : List Str :=
  _rank_tables table_names (_extract_keywords user_query)

example : validate_sql ("SELECT 1".data) = .error .unboundedResult := by decide
example : validate_sql ("SELECT 1 LIMIT 10".data) = .ok ("SELECT 1 LIMIT 10".data) := by decide
example : validate_sql ("SELECT COUNT(*) FROM t".data) = .ok ("SELECT COUNT(*) FROM t".data) := by
  decide
example : validate_sql ("DROP TABLE t".data) = .error .notSelect := by decide
example : validate_sql ("SELECT * FROM t; DROP TABLE t".data) = .error .multipleStatements := by
  decide
example : validate_sql ("SELECT drop FROM t LIMIT 1".data)
    = .error (.bannedKeyword ["drop".data]) := by decide
example : validate_sql ("SELECT dropped_at FROM t LIMIT 5".data)
    = .ok ("SELECT dropped_at FROM t LIMIT 5".data) := by decide
example : validate_sql ("  /* c */ SELECT 1 -- x\n LIMIT 2".data)
    = .ok ("SELECT 1  \n LIMIT 2".data) := by decide

example : _rank_tables ["ab".data, "a".data] [] = ["a".data, "ab".data] := by decide
example : selectTables ["aaa".data, "z".data] [] 1 = ["z".data] := by decide

/-! ### The agent workflow (`src/agent.py`) -/

/-- `MAX_ITERATIONS` from `agent.py`. -/
def MAX_ITERATIONS : Nat := 3

/-- One result row, as a column-name-to-value mapping in projection order. -/
abbrev Row := List (Str × Str)

/-- `AgentState` from `agent.py`. -/
structure AgentStateL where
  user_query : Str
  schema_context : Str
  generated_sql : Str
  execution_result : List Row
  execution_error : Str
  iteration_count : Nat
  final_answer : Str
deriving DecidableEq, Repr

/-- The external collaborators of one run: the schema context retrieved for
the question, the SQL text extracted from the n-th model invocation (first
generation, then corrections), and the database's response to the n-th
executed statement. -/
structure Env where
  schema : Str
  gen : Nat → Str
  exec : Nat → Str → Except Str (List Row)

/-- `validate_sql_node` from `agent.py`. -/
def validate_sql_node (st : AgentStateL) : AgentStateL :=
  match validate_sql st.generated_sql with
  | .ok normalized => { st with generated_sql := normalized, execution_error := [] }
  | .error e =>
      { st with
        execution_error := "SQL safety validation failed: ".data ++ safetyMessage e
        iteration_count := st.iteration_count + 1 }

/-- `execute_readonly_query` from `database.py` with the database call
abstracted: it re-validates the statement (an `SQLSafetyError` escapes as
`Sum.inl`) and runs the validated text exactly once; a backend fault is
converted into `Sum.inr` (`SQLExecutionError`). -/
def execute_readonly_query (ex : Str → Except Str (List Row)) (sql : Str) :
    Except (SQLSafetyErrorKind ⊕ Str) (List Row) :=
  match validate_sql sql with
  | .error e => .error (Sum.inl e)
  | .ok safe_sql =>
    match ex safe_sql with
    | .error m => .error (Sum.inr m)
    | .ok rows => .ok rows

/-- `execute_sql_node` from `agent.py`: it catches only `SQLExecutionError`;
an `SQLSafetyError` raised inside `execute_readonly_query` would escape the
node uncaught, modelled as `none`. -/
def execute_sql_node (ex : Str → Except Str (List Row)) (st : AgentStateL) :
    Option AgentStateL :=
  match execute_readonly_query ex st.generated_sql with
  | .ok rows => some { st with execution_result := rows, execution_error := [] }
  | .error (Sum.inr m) =>
      some { st with
        execution_error := "SQL execution failed: ".data ++ m
        iteration_count := st.iteration_count + 1 }
  | .error (Sum.inl _) => none

/-- `synthesize_answer_node` from `agent.py`. -/
def synthesize_answer_node (st : AgentStateL) : AgentStateL :=
  let row_count := st.execution_result.length
  let message :=
    if row_count = 0 then "Query executed successfully. No rows returned.".data
    else "Query executed successfully. Returned ".data ++ (toString row_count).data
      ++ " row(s).".data
  { st with final_answer := message }

/-- `fail_gracefully_node` from `agent.py`. -/
def fail_gracefully_node (st : AgentStateL) : AgentStateL :=
  { st with
    final_answer :=
      "I could not produce a valid query after multiple attempts. Last error: ".data
        ++ st.execution_error
        ++ " Please rephrase the question with table names or clearer filters.".data }

/-- The nodes of the compiled LangGraph, plus `done` (the `END` node) and
`crashed` (an uncaught exception escaping a node). -/
inductive Node where
  | retrieve_schema : Node
  | generate_sql : Node
  | validate_sql : Node
  | execute_sql : Node
  | self_correct : Node
  | synthesize_answer : Node
  | fail_gracefully : Node
  | done : Node
  | crashed : Node
deriving DecidableEq, Repr

/-- `route_after_validate` from `agent.py` (the label-to-node mapping of
`add_conditional_edges` applied). -/
def route_after_validate (st : AgentStateL) : Node :=
  if st.execution_error ≠ [] then
    if MAX_ITERATIONS ≤ st.iteration_count then .fail_gracefully else .self_correct
  else .execute_sql

/-- `route_after_execute` from `agent.py`. -/
def route_after_execute (st : AgentStateL) : Node :=
  if st.execution_error = [] then .synthesize_answer
  else if MAX_ITERATIONS ≤ st.iteration_count then .fail_gracefully else .self_correct

/-- A configuration of a run: current node, current state, and how many
generator and executor invocations have happened so far. -/
structure Config where
  node : Node
  st : AgentStateL
  genCalls : Nat
  execCalls : Nat
deriving DecidableEq, Repr

/-- `_initial_state` from `agent.py`. -/
def _initial_state (q : Str) : AgentStateL :=
  { user_query := q
    schema_context := []
    generated_sql := []
    execution_result := []
    execution_error := []
    iteration_count := 0
    final_answer := [] }

/-- The start configuration of `run_agent` (graph entry `START →
retrieve_schema`). -/
def initConfig (q : Str) : Config :=
  { node := .retrieve_schema, st := _initial_state q, genCalls := 0, execCalls := 0 }

/-- One transition of the compiled graph (`build_graph` in `agent.py`):
each node function followed by its outgoing (conditional) edge. -/
def step (env : Env) (c : Config) : Config :=
  match c.node with
  | .retrieve_schema =>
      { c with
        node := .generate_sql
        st := { c.st with schema_context := env.schema, execution_error := [] } }
  | .generate_sql =>
      { c with
        node := .validate_sql
        st := { c.st with generated_sql := env.gen c.genCalls, execution_error := [] }
        genCalls := c.genCalls + 1 }
  | .validate_sql =>
      let st := validate_sql_node c.st
      { c with node := route_after_validate st, st := st }
  | .execute_sql =>
      match execute_sql_node (env.exec c.execCalls) c.st with
      | some st =>
          { c with node := route_after_execute st, st := st, execCalls := c.execCalls + 1 }
      | none => { c with node := .crashed }
  | .self_correct =>
      { c with
        node := .validate_sql
        st := { c.st with generated_sql := env.gen c.genCalls }
        genCalls := c.genCalls + 1 }
  | .synthesize_answer => { c with node := .done, st := synthesize_answer_node c.st }
  | .fail_gracefully => { c with node := .done, st := fail_gracefully_node c.st }
  | .done => c
  | .crashed => c

/-- Iterated transitions. -/
def stepN (env : Env) : Nat → Config → Config
  | 0, c => c
  | n + 1, c => stepN env n (step env c)

/-- The recorded trace of a run: the nodes of the first `n` configurations. -/
def nodeTrace (env : Env) : Nat → Config → List Node
  | 0, _ => []
  | n + 1, c => c.node :: nodeTrace env n (step env c)

/-- Number of visits to the self-correction state in the first `n` steps. -/
def countSC (env : Env) (n : Nat) (c : Config) : Nat :=
  (nodeTrace env n c).count .self_correct

/-- Number of visits to a terminal state (synthesize or graceful failure) in
the first `n` steps. -/
def countTerminal (env : Env) (n : Nat) (c : Config) : Nat :=
  (nodeTrace env n c).countP
    (fun nd => nd = .synthesize_answer ∨ nd = .fail_gracefully : Node → Bool)

/-- `run_approved_query` from `agent.py`: validate the caller-supplied
statement, fail gracefully on a validation error, otherwise execute once and
either fail gracefully or synthesize.  `none` models an uncaught exception. -/
def run_approved_query (env : Env) (q approved_sql : Str) : Option AgentStateL :=
  let st0 := { _initial_state q with generated_sql := approved_sql }
  let st1 := validate_sql_node st0
  if st1.execution_error ≠ [] then some (fail_gracefully_node st1)
  else
    match execute_sql_node (env.exec 0) st1 with
    | none => none
    | some st2 =>
      if st2.execution_error ≠ [] then some (fail_gracefully_node st2)
      else some (synthesize_answer_node st2)

/-! ### Lexical predicates used to reason about the comment-stripping passes -/

/-- Whether the two-character sequence `a b` occurs adjacently in `l`. -/
def hasPair (a b : Char) : List Char → Bool
  | [] => false
  | [_] => false
  | c :: d :: rest => if c = a ∧ d = b then true else hasPair a b (d :: rest)

/-- Whether the list starts with a block-comment opener that is closed
somewhere after it (i.e. the pattern of `stripBlock` matches at position 0). -/
def headOC : List Char → Bool
  | c :: d :: rest => if c = '/' ∧ d = '*' then hasPair '*' '/' rest else false
  | _ => false

/-- Whether the block-comment pattern matches anywhere in the list. -/
def hasOC : List Char → Bool
  | [] => false
  | c :: rest => headOC (c :: rest) || hasOC rest

theorem hasPair_iff (a b : Char) : ∀ l, hasPair a b l = true ↔ [a, b] <:+: l := by
  intro l
  induction l with
  | nil =>
    simp [hasPair, List.infix_nil]
  | cons c rest ih =>
    cases rest with
    | nil =>
      simp only [hasPair]
      constructor
      · intro h; exact absurd h (by simp)
      · intro h; have := h.length_le; simp at this
    | cons d rest2 =>
      rw [hasPair, List.infix_cons_iff]
      split
      · rename_i h
        simp only [true_iff]
        exact Or.inl (by simp [List.cons_prefix_cons, h.1.symm, h.2.symm])
      · rename_i h
        rw [ih, List.infix_cons_iff]
        constructor
        · intro h2; exact Or.inr h2
        · rintro (hp | h2)
          · rw [List.cons_prefix_cons] at hp
            rw [List.cons_prefix_cons] at hp
            exact absurd ⟨hp.1.symm, hp.2.1.symm⟩ h
          · exact h2

theorem hasPair_anti {a b : Char} {l₁ l₂ : List Char} (hinf : l₁ <:+: l₂)
    (h : hasPair a b l₂ = false) : hasPair a b l₁ = false := by
  rw [← Bool.not_eq_true, hasPair_iff] at h ⊢
  exact fun hc => h (hc.trans hinf)

theorem hasPair_cons_eq_false {a b : Char} {c : Char} {l : List Char} :
    hasPair a b (c :: l) = false ↔ ¬(c = a ∧ l.head? = some b) ∧ hasPair a b l = false := by
  cases l with
  | nil => simp [hasPair]
  | cons d rest =>
    rw [hasPair]
    split
    · rename_i h
      simp [h.1, h.2]
    · rename_i h
      simp only [List.head?_cons, Option.some.injEq]
      constructor
      · intro h2; exact ⟨fun hc => h ⟨hc.1, hc.2⟩, h2⟩
      · intro h2; exact h2.2

theorem findClose_eq_none_iff : ∀ l, findClose l = none ↔ hasPair '*' '/' l = false := by
  intro l
  induction l with
  | nil => simp [findClose, hasPair]
  | cons c rest ih =>
    cases rest with
    | nil => simp [findClose, hasPair]
    | cons d rest2 =>
      rw [findClose, hasPair]
      split
      · simp
      · exact ih

theorem hasOC_iff : ∀ l, hasOC l = true ↔
    ∃ x y, l = x ++ '/' :: '*' :: y ∧ hasPair '*' '/' y = true := by
  intro l
  induction l with
  | nil =>
    constructor
    · intro h; simp [hasOC] at h
    · rintro ⟨x, y, hl, _⟩; simp at hl
  | cons c rest ih =>
    rw [hasOC, Bool.or_eq_true, ih]
    constructor
    · rintro (h | ⟨x, y, rfl, hy⟩)
      · cases rest with
        | nil => simp [headOC] at h
        | cons d rest2 =>
          rw [headOC] at h
          split at h
          · rename_i hcd
            exact ⟨[], rest2, by simp [hcd.1, hcd.2], h⟩
          · exact absurd h (by simp)
      · exact ⟨c :: x, y, rfl, hy⟩
    · rintro ⟨x, y, hl, hy⟩
      cases x with
      | nil =>
        left
        simp only [List.nil_append, List.cons.injEq] at hl
        rw [hl.1, hl.2, headOC]
        simpa using hy
      | cons x0 x' =>
        right
        simp only [List.cons_append, List.cons.injEq] at hl
        exact ⟨x', y, hl.2, hy⟩

theorem hasOC_anti {l₁ l₂ : List Char} (hinf : l₁ <:+: l₂) (h : hasOC l₂ = false) :
    hasOC l₁ = false := by
  rw [← Bool.not_eq_true, hasOC_iff] at h ⊢
  rintro ⟨x, y, rfl, hy⟩
  obtain ⟨u, v, rfl⟩ := hinf
  refine h ⟨u ++ x, y ++ v, by simp, ?_⟩
  rw [hasPair_iff] at hy ⊢
  exact hy.trans (List.prefix_append y v).isInfix

theorem hasOC_cons_elim {c : Char} {l : List Char} (h : hasOC (c :: l) = false) :
    headOC (c :: l) = false ∧ hasOC l = false := by
  rw [hasOC, Bool.or_eq_false_iff] at h
  exact h

theorem headOC_elim {c : Char} {X : List Char} (h : headOC (c :: X) = true) :
    c = '/' ∧ ∃ X2, X = '*' :: X2 ∧ hasPair '*' '/' X2 = true := by
  cases X with
  | nil => simp [headOC] at h
  | cons d rest =>
    rw [headOC] at h
    split at h
    · rename_i hcd
      exact ⟨hcd.1, rest, by rw [hcd.2], h⟩
    · exact absurd h (by simp)

theorem hasOC_cons_of_noclose {d : Char} {rest : List Char}
    (h : hasPair '*' '/' rest = false) : hasOC (d :: rest) = false := by
  rw [← Bool.not_eq_true, hasOC_iff]
  rintro ⟨x, y, hl, hy⟩
  cases x with
  | nil =>
    simp only [List.nil_append, List.cons.injEq] at hl
    have : y <:+: rest := by rw [hl.2]; exact (List.suffix_cons '*' y).isInfix
    exact absurd hy (by simpa using hasPair_anti this h)
  | cons x0 x' =>
    simp only [List.cons_append, List.cons.injEq] at hl
    have : y <:+: rest := by
      rw [hl.2]
      exact List.IsSuffix.isInfix ⟨x' ++ ['/', '*'], by simp⟩
    exact absurd hy (by simpa using hasPair_anti this h)

theorem hasPair_tail_of_false {a b c : Char} {l : List Char}
    (h : hasPair a b (c :: l) = false) : hasPair a b l = false :=
  (hasPair_cons_eq_false.mp h).2

theorem headOC_eq_false_of_ne {c : Char} {X : List Char} (h : c ≠ '/') :
    headOC (c :: X) = false := by
  cases hh : headOC (c :: X) with
  | false => rfl
  | true => exact absurd (headOC_elim hh).1 h

/-! ### The output of `stripBlock` contains no block-comment match -/

theorem stripBlockF_head : ∀ (f : Nat) (l : List Char) {e : Char},
    (stripBlockF f l).head? = some e → l.head? = some e ∨ e = ' ' := by
  intro f l e h
  match f, l with
  | 0, l => exact Or.inl h
  | _ + 1, [] => simp [stripBlockF] at h
  | _ + 1, [c] => exact Or.inl h
  | _ + 1, c :: d :: rest =>
    rw [stripBlockF] at h
    split at h
    · cases hfc : findClose rest <;> rw [hfc] at h
      · exact Or.inl h
      · exact Or.inr (by simpa using h.symm)
    · exact Or.inl h

theorem stripBlockF_eq_self : ∀ (f : Nat) (l : List Char), hasOC l = false →
    stripBlockF f l = l := by
  intro f
  induction f with
  | zero => intro l _; rfl
  | succ f ih =>
    intro l hl
    match l with
    | [] => rfl
    | [c] => rfl
    | c :: d :: rest =>
      rw [stripBlockF]
      obtain ⟨hh, ht⟩ := hasOC_cons_elim hl
      split
      · rename_i hcd
        have hp : hasPair '*' '/' rest = false := by
          rw [headOC, if_pos hcd] at hh; exact hh
        rw [(findClose_eq_none_iff rest).mpr hp]
      · rw [ih (d :: rest) ht]

theorem stripBlock_eq_self {l : List Char} (h : hasOC l = false) : stripBlock l = l :=
  stripBlockF_eq_self l.length l h

theorem hasOC_stripBlockF : ∀ (f : Nat) (l : List Char), l.length ≤ f →
    hasOC (stripBlockF f l) = false := by
  intro f
  induction f with
  | zero =>
    intro l hl
    have : l = [] := by cases l <;> simp_all
    subst this; rfl
  | succ f ih =>
    intro l hl
    match l with
    | [] => rfl
    | [c] => simp [stripBlockF, hasOC, headOC]
    | c :: d :: rest =>
      simp only [List.length_cons] at hl
      rw [stripBlockF]
      split
      · rename_i hcd
        cases hfc : findClose rest with
        | some rest2 =>
          have hlen := findClose_length rest rest2 hfc
          rw [hasOC, Bool.or_eq_false_iff]
          exact ⟨headOC_eq_false_of_ne (by decide), ih rest2 (by omega)⟩
        | none =>
          have hp : hasPair '*' '/' rest = false := (findClose_eq_none_iff rest).mp hfc
          rw [hasOC, Bool.or_eq_false_iff]
          refine ⟨?_, hasOC_cons_of_noclose hp⟩
          rw [headOC, if_pos hcd]; exact hp
      · rename_i hcd
        rw [hasOC, Bool.or_eq_false_iff]
        refine ⟨?_, ih (d :: rest) (by simp; omega)⟩
        by_cases hc : c = '/'
        · cases hh : headOC (c :: stripBlockF f (d :: rest)) with
          | false => rfl
          | true =>
            obtain ⟨_, X2, hX, _⟩ := headOC_elim hh
            have : (stripBlockF f (d :: rest)).head? = some '*' := by rw [hX]; rfl
            rcases stripBlockF_head f (d :: rest) this with h1 | h1
            · simp only [List.head?_cons, Option.some.injEq] at h1
              exact (hcd ⟨hc, h1⟩).elim
            · exact absurd h1 (by decide)
        · exact headOC_eq_false_of_ne hc

theorem hasOC_stripBlock (l : List Char) : hasOC (stripBlock l) = false :=
  hasOC_stripBlockF l.length l le_rfl

/-! ### The dash pass: output properties and fixed points -/

theorem stripDash_head : ∀ {l : List Char} {e : Char},
    (stripDash l).head? = some e → l.head? = some e ∨ e = ' ' := by
  intro l e h
  match l with
  | [] => simp [stripDash] at h
  | [c] => exact Or.inl h
  | c :: d :: rest =>
    rw [stripDash] at h
    split at h
    · exact Or.inr (by simpa using h.symm)
    · exact Or.inl h

theorem stripDash_eq_self : ∀ {l : List Char}, hasPair '-' '-' l = false →
    stripDash l = l := by
  intro l
  induction l with
  | nil => intro _; rfl
  | cons c rest ih =>
    intro h
    match rest with
    | [] => rfl
    | d :: rest2 =>
      rw [stripDash]
      rw [hasPair_cons_eq_false] at h
      rw [if_neg (by simpa using h.1), ih h.2]

theorem dash_noDD_aux : ∀ (n : Nat) (l : List Char), l.length ≤ n →
    hasPair '-' '-' (stripDash l) = false ∧ hasPair '-' '-' (skipDash l) = false := by
  intro n
  induction n with
  | zero =>
    intro l hl
    have : l = [] := by cases l <;> simp_all
    subst this; exact ⟨rfl, rfl⟩
  | succ n ih =>
    intro l hl
    constructor
    · match l with
      | [] => rfl
      | [c] => simp [stripDash, hasPair]
      | c :: d :: rest =>
        simp only [List.length_cons] at hl
        rw [stripDash]
        split
        · rw [hasPair_cons_eq_false]
          exact ⟨fun hx => absurd hx.1 (by decide), (ih rest (by omega)).2⟩
        · rename_i hcd
          rw [hasPair_cons_eq_false]
          refine ⟨?_, (ih (d :: rest) (by simp; omega)).1⟩
          rintro ⟨hc, hh⟩
          rcases stripDash_head hh with h1 | h1
          · simp only [List.head?_cons, Option.some.injEq] at h1
            exact hcd ⟨hc, h1⟩
          · exact absurd h1 (by decide)
    · match l with
      | [] => rfl
      | c :: rest =>
        simp only [List.length_cons] at hl
        rw [skipDash]
        split
        · rw [hasPair_cons_eq_false]
          exact ⟨fun hx => absurd hx.1 (by decide), (ih rest (by omega)).1⟩
        · exact (ih rest (by omega)).2

theorem stripDash_noDD (l : List Char) : hasPair '-' '-' (stripDash l) = false :=
  (dash_noDD_aux l.length l le_rfl).1

theorem dash_pair_aux (a b : Char) (ha : a ≠ ' ') (hb : b ≠ ' ') :
    ∀ (n : Nat) (l : List Char), l.length ≤ n →
      (hasPair a b l = false → hasPair a b (stripDash l) = false) ∧
      (hasPair a b l = false → hasPair a b (skipDash l) = false) := by
  intro n
  induction n with
  | zero =>
    intro l hl
    have : l = [] := by cases l <;> simp_all
    subst this; exact ⟨fun _ => rfl, fun _ => rfl⟩
  | succ n ih =>
    intro l hl
    constructor
    · match l with
      | [] => intro _; rfl
      | [c] => intro h; exact h
      | c :: d :: rest =>
        simp only [List.length_cons] at hl
        intro h
        rw [stripDash]
        split
        · rw [hasPair_cons_eq_false]
          refine ⟨fun hx => ha (hx.1.symm), ?_⟩
          exact (ih rest (by omega)).2
            (hasPair_tail_of_false (hasPair_tail_of_false h))
        · rw [hasPair_cons_eq_false]
          refine ⟨?_, (ih (d :: rest) (by simp; omega)).1 (hasPair_tail_of_false h)⟩
          rintro ⟨hc, hh⟩
          rcases stripDash_head hh with h1 | h1
          · simp only [List.head?_cons, Option.some.injEq] at h1
            exact absurd ⟨hc, by rw [List.head?_cons, h1]⟩ (hasPair_cons_eq_false.mp h).1
          · exact hb h1
    · match l with
      | [] => intro _; rfl
      | c :: rest =>
        simp only [List.length_cons] at hl
        intro h
        rw [skipDash]
        split
        · rename_i hnl
          rw [hasPair_cons_eq_false]
          refine ⟨?_, (ih rest (by omega)).1 (hasPair_tail_of_false h)⟩
          rintro ⟨hc, hh⟩
          rcases stripDash_head hh with h1 | h1
          · exact absurd ⟨hnl.trans hc, h1⟩ (hasPair_cons_eq_false.mp h).1
          · exact hb h1
        · exact (ih rest (by omega)).2 (hasPair_tail_of_false h)

theorem stripDash_pair {a b : Char} (ha : a ≠ ' ') (hb : b ≠ ' ') {l : List Char}
    (h : hasPair a b l = false) : hasPair a b (stripDash l) = false :=
  ((dash_pair_aux a b ha hb) l.length l le_rfl).1 h

theorem dash_hasOC_aux : ∀ (n : Nat) (l : List Char), l.length ≤ n →
    (hasOC l = false → hasOC (stripDash l) = false) ∧
    (hasOC l = false → hasOC (skipDash l) = false) := by
  intro n
  induction n with
  | zero =>
    intro l hl
    have : l = [] := by cases l <;> simp_all
    subst this; exact ⟨fun _ => rfl, fun _ => rfl⟩
  | succ n ih =>
    intro l hl
    constructor
    · match l with
      | [] => intro _; rfl
      | [c] => intro h; exact h
      | c :: d :: rest =>
        simp only [List.length_cons] at hl
        intro h
        obtain ⟨hh, ht⟩ := hasOC_cons_elim h
        rw [stripDash]
        split
        · rw [hasOC, Bool.or_eq_false_iff]
          refine ⟨headOC_eq_false_of_ne (by decide), ?_⟩
          exact (ih rest (by omega)).2 (hasOC_cons_elim ht).2
        · rename_i hcd
          rw [hasOC, Bool.or_eq_false_iff]
          refine ⟨?_, (ih (d :: rest) (by simp; omega)).1 ht⟩
          by_cases hc : c = '/'
          · cases hho : headOC (c :: stripDash (d :: rest)) with
            | false => rfl
            | true =>
              obtain ⟨_, X2, hX, hp2⟩ := headOC_elim hho
              have hX' : (stripDash (d :: rest)).head? = some '*' := by rw [hX]; rfl
              rcases stripDash_head hX' with h1 | h1
              · simp only [List.head?_cons, Option.some.injEq] at h1
                subst h1
                subst hc
                rw [headOC, if_pos ⟨rfl, rfl⟩] at hh
                match rest with
                | [] =>
                  rw [show stripDash ['*'] = ['*'] from rfl] at hX
                  simp at hX
                  rw [hX] at hp2
                  simp [hasPair] at hp2
                | r0 :: rs =>
                  rw [show stripDash ('*' :: r0 :: rs)
                      = '*' :: stripDash (r0 :: rs) from by rw [stripDash, if_neg (by simp)]]
                    at hX
                  simp only [List.cons.injEq] at hX
                  rw [← hX.2] at hp2
                  exact absurd hp2 (by
                    simpa using stripDash_pair (by decide) (by decide) hh)
              · exact absurd h1 (by decide)
          · exact headOC_eq_false_of_ne hc
    · match l with
      | [] => intro _; rfl
      | c :: rest =>
        simp only [List.length_cons] at hl
        intro h
        rw [skipDash]
        split
        · rw [hasOC, Bool.or_eq_false_iff]
          refine ⟨headOC_eq_false_of_ne (by decide), ?_⟩
          exact (ih rest (by omega)).1 (hasOC_cons_elim h).2
        · exact (ih rest (by omega)).2 (hasOC_cons_elim h).2

theorem stripDash_hasOC {l : List Char} (h : hasOC l = false) :
    hasOC (stripDash l) = false :=
  ((dash_hasOC_aux l.length l le_rfl).1) h

/-! ### The hash pass: output properties and fixed points -/

theorem stripHash_head : ∀ {l : List Char} {e : Char},
    (stripHash l).head? = some e → l.head? = some e ∨ e = ' ' := by
  intro l e h
  match l with
  | [] => simp [stripHash] at h
  | c :: rest =>
    rw [stripHash] at h
    split at h
    · exact Or.inr (by simpa using h.symm)
    · exact Or.inl h

theorem stripHash_eq_self : ∀ {l : List Char}, '#' ∉ l → stripHash l = l := by
  intro l
  induction l with
  | nil => intro _; rfl
  | cons c rest ih =>
    intro h
    rw [stripHash, if_neg (by simp at h; exact fun hc => h.1 hc.symm), ih (by simp at h; exact h.2)]

theorem hash_not_mem_aux : ∀ (n : Nat) (l : List Char), l.length ≤ n →
    '#' ∉ stripHash l ∧ '#' ∉ skipHash l := by
  intro n
  induction n with
  | zero =>
    intro l hl
    have : l = [] := by cases l <;> simp_all
    subst this; exact ⟨by simp [stripHash], by simp [skipHash]⟩
  | succ n ih =>
    intro l hl
    constructor
    · match l with
      | [] => simp [stripHash]
      | c :: rest =>
        simp only [List.length_cons] at hl
        rw [stripHash]
        split
        · simp only [List.mem_cons]
          rintro (h1 | h1)
          · exact absurd h1 (by decide)
          · exact (ih rest (by omega)).2 h1
        · rename_i hch
          simp only [List.mem_cons]
          rintro (h1 | h1)
          · exact hch h1.symm
          · exact (ih rest (by omega)).1 h1
    · match l with
      | [] => simp [skipHash]
      | c :: rest =>
        simp only [List.length_cons] at hl
        rw [skipHash]
        split
        · simp only [List.mem_cons]
          rintro (h1 | h1)
          · exact absurd h1 (by decide)
          · exact (ih rest (by omega)).1 h1
        · exact (ih rest (by omega)).2

theorem stripHash_not_mem (l : List Char) : '#' ∉ stripHash l :=
  (hash_not_mem_aux l.length l le_rfl).1

theorem hash_pair_aux (a b : Char) (ha : a ≠ ' ') (hb : b ≠ ' ') :
    ∀ (n : Nat) (l : List Char), l.length ≤ n →
      (hasPair a b l = false → hasPair a b (stripHash l) = false) ∧
      (hasPair a b l = false → hasPair a b (skipHash l) = false) := by
  intro n
  induction n with
  | zero =>
    intro l hl
    have : l = [] := by cases l <;> simp_all
    subst this; exact ⟨fun _ => rfl, fun _ => rfl⟩
  | succ n ih =>
    intro l hl
    constructor
    · match l with
      | [] => intro _; rfl
      | c :: rest =>
        simp only [List.length_cons] at hl
        intro h
        rw [stripHash]
        split
        · rw [hasPair_cons_eq_false]
          exact ⟨fun hx => ha hx.1.symm, (ih rest (by omega)).2 (hasPair_tail_of_false h)⟩
        · rw [hasPair_cons_eq_false]
          refine ⟨?_, (ih rest (by omega)).1 (hasPair_tail_of_false h)⟩
          rintro ⟨hc, hh⟩
          rcases stripHash_head hh with h1 | h1
          · exact absurd ⟨hc, h1⟩ (hasPair_cons_eq_false.mp h).1
          · exact hb h1
    · match l with
      | [] => intro _; rfl
      | c :: rest =>
        simp only [List.length_cons] at hl
        intro h
        rw [skipHash]
        split
        · rename_i hnl
          rw [hasPair_cons_eq_false]
          refine ⟨?_, (ih rest (by omega)).1 (hasPair_tail_of_false h)⟩
          rintro ⟨hc, hh⟩
          rcases stripHash_head hh with h1 | h1
          · exact absurd ⟨hnl.trans hc, h1⟩ (hasPair_cons_eq_false.mp h).1
          · exact hb h1
        · exact (ih rest (by omega)).2 (hasPair_tail_of_false h)

theorem stripHash_pair {a b : Char} (ha : a ≠ ' ') (hb : b ≠ ' ') {l : List Char}
    (h : hasPair a b l = false) : hasPair a b (stripHash l) = false :=
  ((hash_pair_aux a b ha hb) l.length l le_rfl).1 h

theorem hash_hasOC_aux : ∀ (n : Nat) (l : List Char), l.length ≤ n →
    (hasOC l = false → hasOC (stripHash l) = false) ∧
    (hasOC l = false → hasOC (skipHash l) = false) := by
  intro n
  induction n with
  | zero =>
    intro l hl
    have : l = [] := by cases l <;> simp_all
    subst this; exact ⟨fun _ => rfl, fun _ => rfl⟩
  | succ n ih =>
    intro l hl
    constructor
    · match l with
      | [] => intro _; rfl
      | c :: rest =>
        simp only [List.length_cons] at hl
        intro h
        obtain ⟨hh, ht⟩ := hasOC_cons_elim h
        rw [stripHash]
        split
        · rw [hasOC, Bool.or_eq_false_iff]
          exact ⟨headOC_eq_false_of_ne (by decide), (ih rest (by omega)).2 ht⟩
        · rw [hasOC, Bool.or_eq_false_iff]
          refine ⟨?_, (ih rest (by omega)).1 ht⟩
          by_cases hc : c = '/'
          · cases hho : headOC (c :: stripHash rest) with
            | false => rfl
            | true =>
              obtain ⟨_, X2, hX, hp2⟩ := headOC_elim hho
              have hX' : (stripHash rest).head? = some '*' := by rw [hX]; rfl
              rcases stripHash_head hX' with h1 | h1
              · match rest with
                | [] => simp at h1
                | r0 :: rs =>
                  simp only [List.head?_cons, Option.some.injEq] at h1
                  subst h1
                  subst hc
                  rw [headOC, if_pos ⟨rfl, rfl⟩] at hh
                  rw [show stripHash ('*' :: rs) = '*' :: stripHash rs from by
                      rw [stripHash, if_neg (by decide)]] at hX
                  simp only [List.cons.injEq] at hX
                  rw [← hX.2] at hp2
                  exact absurd hp2 (by
                    simpa using stripHash_pair (by decide) (by decide) hh)
              · exact absurd h1 (by decide)
          · exact headOC_eq_false_of_ne hc
    · match l with
      | [] => intro _; rfl
      | c :: rest =>
        simp only [List.length_cons] at hl
        intro h
        rw [skipHash]
        split
        · rw [hasOC, Bool.or_eq_false_iff]
          exact ⟨headOC_eq_false_of_ne (by decide), (ih rest (by omega)).1 (hasOC_cons_elim h).2⟩
        · exact (ih rest (by omega)).2 (hasOC_cons_elim h).2

theorem stripHash_hasOC {l : List Char} (h : hasOC l = false) :
    hasOC (stripHash l) = false :=
  ((hash_hasOC_aux l.length l le_rfl).1) h

/-! ### Whitespace stripping: infix decomposition and idempotence -/

theorem contains_eq_false_iff {l : List Char} {c : Char} :
    (l.contains c = false) ↔ c ∉ l := by simp

theorem dropWhile_head_false {p : Char → Bool} : ∀ {l : List Char} {c : Char},
    (l.dropWhile p).head? = some c → p c = false := by
  intro l
  induction l with
  | nil => intro c h; simp [List.dropWhile] at h
  | cons a l' ih =>
    intro c h
    rw [List.dropWhile_cons] at h
    split at h
    · exact ih h
    · rename_i hp
      simp only [List.head?_cons, Option.some.injEq] at h
      rw [← h]; simpa using hp

theorem dropWhile_eq_self_of_head {p : Char → Bool} {l : List Char}
    (h : ∀ c, l.head? = some c → p c = false) : l.dropWhile p = l := by
  cases l with
  | nil => rfl
  | cons a l' => rw [List.dropWhile_cons, if_neg (by simp [h a rfl])]

theorem pyRStrip_decomp (x : Str) :
    x = pyRStrip x ++ (x.reverse.takeWhile pyIsSpace).reverse := by
  conv_lhs => rw [← List.reverse_reverse x]
  conv_lhs => rw [← List.takeWhile_append_dropWhile pyIsSpace x.reverse]
  rw [List.reverse_append]
  rfl

theorem mem_pyRStrip_of_not_space {c : Char} (hc : pyIsSpace c = false) {x : Str}
    (h : c ∈ x) : c ∈ pyRStrip x := by
  rw [pyRStrip_decomp x] at h
  rcases List.mem_append.mp h with h1 | h1
  · exact h1
  · exfalso
    have := List.mem_takeWhile_imp (List.mem_reverse.mp h1)
    rw [hc] at this
    exact Bool.false_ne_true this

theorem pyStrip_isInfix (l : Str) : pyStrip l <:+: l := by
  refine ⟨l.takeWhile pyIsSpace,
    ((l.dropWhile pyIsSpace).reverse.takeWhile pyIsSpace).reverse, ?_⟩
  show l.takeWhile pyIsSpace ++ pyRStrip (l.dropWhile pyIsSpace) ++ _ = l
  rw [List.append_assoc, ← pyRStrip_decomp, List.takeWhile_append_dropWhile]

theorem pyStrip_idem (l : Str) : pyStrip (pyStrip l) = pyStrip l := by
  by_cases hB : (l.dropWhile pyIsSpace).reverse.dropWhile pyIsSpace = []
  · show pyStrip (pyRStrip (l.dropWhile pyIsSpace)) = pyRStrip (l.dropWhile pyIsSpace)
    unfold pyRStrip
    rw [hB]
    rfl
  · have hBhead : ∀ c, ((l.dropWhile pyIsSpace).reverse.dropWhile pyIsSpace).head? = some c →
        pyIsSpace c = false := fun c hc => dropWhile_head_false hc
    have hAhead : ∀ c, (l.dropWhile pyIsSpace).head? = some c → pyIsSpace c = false :=
      fun c hc => dropWhile_head_false hc
    have hlast : ((l.dropWhile pyIsSpace).reverse.dropWhile pyIsSpace).getLast?
        = (l.dropWhile pyIsSpace).head? := by
      have h1 : (l.dropWhile pyIsSpace).reverse.getLast?
          = ((l.dropWhile pyIsSpace).reverse.dropWhile pyIsSpace).getLast? := by
        conv_lhs =>
          rw [← List.takeWhile_append_dropWhile pyIsSpace (l.dropWhile pyIsSpace).reverse]
        rw [List.getLast?_append]
        cases hc : ((l.dropWhile pyIsSpace).reverse.dropWhile pyIsSpace).getLast? with
        | none => exact absurd (List.getLast?_eq_none_iff.mp hc) hB
        | some c => simp
      rw [← h1, List.getLast?_reverse]
    have hmhead : ∀ c,
        (((l.dropWhile pyIsSpace).reverse.dropWhile pyIsSpace).reverse).head? = some c →
        pyIsSpace c = false := by
      intro c hc
      rw [List.head?_reverse, hlast] at hc
      exact hAhead c hc
    show pyRStrip ((((l.dropWhile pyIsSpace).reverse.dropWhile pyIsSpace).reverse).dropWhile
      pyIsSpace) = ((l.dropWhile pyIsSpace).reverse.dropWhile pyIsSpace).reverse
    rw [dropWhile_eq_self_of_head hmhead]
    show ((((l.dropWhile pyIsSpace).reverse.dropWhile pyIsSpace).reverse).reverse.dropWhile
      pyIsSpace).reverse = _
    rw [List.reverse_reverse, dropWhile_eq_self_of_head hBhead]

/-- The comment stripper reaches a fixed point after one application: its
output contains no matched block comment, no `--`, and no `#`, and is
whitespace-trimmed, so re-stripping leaves it unchanged. -/
theorem strip_comments_fix (s : Str) :
    _strip_comments (_strip_comments s) = _strip_comments s := by
  have hinf : pyStrip (stripHash (stripDash (stripBlock s)))
      <:+: stripHash (stripDash (stripBlock s)) := pyStrip_isInfix _
  have hOC : hasOC (_strip_comments s) = false :=
    hasOC_anti hinf (stripHash_hasOC (stripDash_hasOC (hasOC_stripBlock s)))
  have hDD : hasPair '-' '-' (_strip_comments s) = false :=
    hasPair_anti hinf (stripHash_pair (by decide) (by decide) (stripDash_noDD (stripBlock s)))
  have hH : '#' ∉ _strip_comments s :=
    fun hm => stripHash_not_mem (stripDash (stripBlock s)) (hinf.subset hm)
  show pyStrip (stripHash (stripDash (stripBlock (_strip_comments s)))) = _strip_comments s
  rw [stripBlock_eq_self hOC, stripDash_eq_self hDD, stripHash_eq_self hH]
  exact pyStrip_idem (stripHash (stripDash (stripBlock s)))

/-- The whitespace-trimming step of `_strip_comments` makes its output a
fixed point of `pyStrip`. -/
theorem pyStrip_strip_comments (s : Str) :
    pyStrip (_strip_comments s) = _strip_comments s :=
  pyStrip_idem (stripHash (stripDash (stripBlock s)))

/-- A successful validation is idempotent: the returned statement validates
again to itself. -/
theorem validate_sql_idem {s r : Str} (h : validate_sql s = .ok r) :
    validate_sql r = .ok r := by
  simp only [validate_sql] at h
  split_ifs at h with h1 h2 h3 h4 h5
  simp only [Except.ok.injEq] at h
  subst h
  simp only [validate_sql, strip_comments_fix]
  split_ifs
  rfl

/-- All facts recorded by a successful validation. -/
theorem validate_sql_ok_elim {s r : Str} (h : validate_sql s = .ok r) :
    r = _strip_comments s ∧ r ≠ [] ∧ _contains_multiple_statements r = false ∧
    ("select".data).isPrefixOf (r.map Char.toLower) = true ∧ bannedUsed r = [] ∧
    (hasLimitWord r = true ∨ matchAggregateOnly r = true) := by
  simp only [validate_sql] at h
  split_ifs at h with h1 h2 h3 h4 h5
  simp only [Except.ok.injEq] at h
  subst h
  refine ⟨rfl, h1, by simpa using h2, by simpa using h3, by simpa using h4, by simpa using h5⟩

/-- Conversely, when the first four checks pass, validation succeeds exactly
when the result-bounding rule holds. -/
theorem validate_sql_bounding_iff {s : Str} (h1 : _strip_comments s ≠ [])
    (h2 : _contains_multiple_statements (_strip_comments s) = false)
    (h3 : ("select".data).isPrefixOf ((_strip_comments s).map Char.toLower) = true)
    (h4 : bannedUsed (_strip_comments s) = []) :
    validate_sql s = .ok (_strip_comments s) ↔
      (hasLimitWord (_strip_comments s) = true ∨
        matchAggregateOnly (_strip_comments s) = true) := by
  simp only [validate_sql]
  rw [if_neg h1, if_neg (by simp [h2]), if_neg (by simp [h3]), if_neg (by simp [h4])]
  by_cases hb : hasLimitWord (_strip_comments s) = true ∨
      matchAggregateOnly (_strip_comments s) = true
  · rw [if_neg (not_not_intro hb)]
    exact ⟨fun _ => hb, fun _ => rfl⟩
  · rw [if_pos hb]
    exact ⟨fun hc => by simp at hc, fun h2 => absurd h2 hb⟩

/-! ### Machine lemmas -/

theorem stepN_succ' (env : Env) : ∀ (n : Nat) (c : Config),
    stepN env (n + 1) c = step env (stepN env n c) := by
  intro n
  induction n with
  | zero => intro c; rfl
  | succ n ih => intro c; exact ih (step env c)

theorem step_done {env : Env} {c : Config} (h : c.node = .done) : step env c = c := by
  rw [step, h]

theorem stepN_done {env : Env} {c : Config} (h : c.node = .done) :
    ∀ n, stepN env n c = c := by
  intro n
  induction n with
  | zero => rfl
  | succ n ih => rw [stepN, step_done h, ih]

theorem nodeTrace_done {env : Env} {c : Config} (h : c.node = .done) :
    ∀ n, nodeTrace env n c = List.replicate n .done := by
  intro n
  induction n with
  | zero => rfl
  | succ n ih => rw [nodeTrace, step_done h, ih, h, List.replicate_succ]

theorem validate_msg_ne_nil (e : SQLSafetyErrorKind) :
    ("SQL safety validation failed: ".data ++ safetyMessage e : Str) ≠ [] :=
  fun hc => by
    have := (List.append_eq_nil.mp hc).1
    exact absurd this (by decide)

theorem exec_msg_ne_nil (m : Str) : ("SQL execution failed: ".data ++ m : Str) ≠ [] :=
  fun hc => by
    have := (List.append_eq_nil.mp hc).1
    exact absurd this (by decide)

/-- The only transition into the execute node is a successful validation, and
the statement carried into it is the validator's output. -/
theorem step_execute_shape {env : Env} {c : Config}
    (h : (step env c).node = .execute_sql) :
    c.node = .validate_sql ∧
    validate_sql c.st.generated_sql = .ok ((step env c).st.generated_sql) ∧
    (step env c).st.execution_error = [] := by
  rcases c with ⟨node, st, g, e⟩
  cases node with
  | retrieve_schema => simp [step] at h
  | generate_sql => simp [step] at h
  | self_correct => simp [step] at h
  | synthesize_answer => simp [step] at h
  | fail_gracefully => simp [step] at h
  | done => simp [step] at h
  | crashed => simp [step] at h
  | execute_sql =>
    rw [step] at h
    rcases hex : execute_sql_node (env.exec e) st with _ | st2 <;> rw [hex] at h
    · simp at h
    · simp only at h
      rw [route_after_execute] at h
      split_ifs at h
  | validate_sql =>
    have hstep : step env ⟨.validate_sql, st, g, e⟩
        = { node := route_after_validate (validate_sql_node st), st := validate_sql_node st,
            genCalls := g, execCalls := e } := rfl
    rw [hstep] at h ⊢
    rcases hv : validate_sql st.generated_sql with ev | nv
    · have hnode : validate_sql_node st
          = { st with
              execution_error := "SQL safety validation failed: ".data ++ safetyMessage ev
              iteration_count := st.iteration_count + 1 } := by
        rw [validate_sql_node, hv]
      rw [hnode] at h
      rw [route_after_validate] at h
      simp only at h
      rw [if_pos (validate_msg_ne_nil ev)] at h
      split_ifs at h
    · have hnode : validate_sql_node st
          = { st with generated_sql := nv, execution_error := [] } := by
        rw [validate_sql_node, hv]
      refine ⟨rfl, ?_, ?_⟩
      · rw [hnode]
      · rw [hnode]

/-- Rank of a node along the success path, used in the termination measure. -/
def nodeRank : Node → Nat
  | .done => 0
  | .crashed => 0
  | .synthesize_answer => 1
  | .fail_gracefully => 1
  | .execute_sql => 2
  | .validate_sql => 3
  | .self_correct => 4
  | .generate_sql => 5
  | .retrieve_schema => 6

/-- Termination measure: the retry counter bounds the remaining loop trips
(`iteration_count` is non-decreasing and capped by routing at
`MAX_ITERATIONS`), and the node rank decreases within a trip. -/
def muC (c : Config) : Nat :=
  if c.node = .done ∨ c.node = .crashed then 0
  else 7 * (3 - min c.st.iteration_count 3) + nodeRank c.node

/-- The invariant that makes the execute node safe: its statement is a fixed
point of the validator (established by the preceding validation together with
`validate_sql_idem`). -/
def InvC (c : Config) : Prop :=
  c.node = .execute_sql → validate_sql c.st.generated_sql = .ok c.st.generated_sql

theorem InvC_initConfig (q : Str) : InvC (initConfig q) := by
  intro h; simp [initConfig] at h

theorem InvC_step (env : Env) (c : Config) : InvC (step env c) := by
  intro hex
  exact validate_sql_idem (step_execute_shape hex).2.1

theorem InvC_stepN (env : Env) (q : Str) : ∀ n, InvC (stepN env n (initConfig q)) := by
  intro n
  cases n with
  | zero => exact InvC_initConfig q
  | succ n => rw [stepN_succ']; exact InvC_step env _

/-- Everything the bounded-run argument needs about a single transition. -/
theorem step_spec (env : Env) (c : Config) (hInv : InvC c) (hd : c.node ≠ .done)
    (hc : c.node ≠ .crashed) :
    (step env c).node ≠ .crashed ∧
    muC (step env c) < muC c ∧
    ((c.node = .synthesize_answer ∨ c.node = .fail_gracefully) ↔ (step env c).node = .done) ∧
    ((step env c).node = .self_correct →
      (step env c).st.iteration_count = c.st.iteration_count + 1 ∧
        c.st.iteration_count + 1 < MAX_ITERATIONS) ∧
    ((step env c).node ≠ .self_correct →
      c.st.iteration_count ≤ (step env c).st.iteration_count) := by
  rcases c with ⟨node, st, g, e⟩
  cases node with
  | done => exact absurd rfl hd
  | crashed => exact absurd rfl hc
  | retrieve_schema =>
    refine ⟨by simp [step], ?_, by simp [step], by simp [step], by simp [step]⟩
    simp [step, muC, nodeRank]
  | generate_sql =>
    refine ⟨by simp [step], ?_, by simp [step], by simp [step], by simp [step]⟩
    simp [step, muC, nodeRank]
  | self_correct =>
    refine ⟨by simp [step], ?_, by simp [step], by simp [step], by simp [step]⟩
    simp [step, muC, nodeRank]
  | synthesize_answer =>
    refine ⟨by simp [step], ?_, by simp [step], by simp [step], by simp [step, synthesize_answer_node]⟩
    simp [step, muC, nodeRank]
  | fail_gracefully =>
    refine ⟨by simp [step], ?_, by simp [step], by simp [step], by simp [step, fail_gracefully_node]⟩
    simp [step, muC, nodeRank]
  | validate_sql =>
    have hstep : step env ⟨.validate_sql, st, g, e⟩
        = { node := route_after_validate (validate_sql_node st), st := validate_sql_node st,
            genCalls := g, execCalls := e } := rfl
    rcases hv : validate_sql st.generated_sql with ev | nv
    · have hnode : validate_sql_node st
          = { st with
              execution_error := "SQL safety validation failed: ".data ++ safetyMessage ev
              iteration_count := st.iteration_count + 1 } := by
        rw [validate_sql_node, hv]
      rw [hstep, hnode]
      rw [route_after_validate]
      simp only
      rw [if_pos (validate_msg_ne_nil ev)]
      by_cases hk : MAX_ITERATIONS ≤ st.iteration_count + 1
      · rw [if_pos hk]
        refine ⟨by simp, ?_, by simp, by simp, by simp⟩
        simp [muC, nodeRank, MAX_ITERATIONS] at hk ⊢
        omega
      · rw [if_neg hk]
        refine ⟨by simp, ?_, by simp, ?_, by simp⟩
        · simp [muC, nodeRank, MAX_ITERATIONS] at hk ⊢
          omega
        · intro _
          refine ⟨by simp, ?_⟩
          simp only [MAX_ITERATIONS] at hk ⊢
          omega
    · have hnode : validate_sql_node st
          = { st with generated_sql := nv, execution_error := [] } := by
        rw [validate_sql_node, hv]
      rw [hstep, hnode]
      rw [route_after_validate]
      simp only
      rw [if_neg (by simp)]
      refine ⟨by simp, ?_, by simp, by simp, by simp⟩
      simp [muC, nodeRank]
  | execute_sql =>
    have hv : validate_sql st.generated_sql = .ok st.generated_sql := hInv rfl
    rcases hex : env.exec e st.generated_sql with m | rows
    · have her : execute_readonly_query (env.exec e) st.generated_sql
          = .error (Sum.inr m) := by
        rw [execute_readonly_query]
        split
        · rename_i e' he'
          rw [hv] at he'
          cases he'
        · rename_i safe hsafe
          rw [hv] at hsafe
          cases hsafe
          rw [hex]
      have hnode : execute_sql_node (env.exec e) st
          = some { st with
              execution_error := "SQL execution failed: ".data ++ m
              iteration_count := st.iteration_count + 1 } := by
        rw [execute_sql_node, her]
      have hstep : step env ⟨.execute_sql, st, g, e⟩
          = { node := route_after_execute { st with
                execution_error := "SQL execution failed: ".data ++ m
                iteration_count := st.iteration_count + 1 },
              st := { st with
                execution_error := "SQL execution failed: ".data ++ m
                iteration_count := st.iteration_count + 1 },
              genCalls := g, execCalls := e + 1 } := by
        simp only [step, hnode]
      rw [hstep]
      rw [route_after_execute]
      simp only
      rw [if_neg (exec_msg_ne_nil m)]
      by_cases hk : MAX_ITERATIONS ≤ st.iteration_count + 1
      · rw [if_pos hk]
        refine ⟨by simp, ?_, by simp, by simp, by simp⟩
        simp [muC, nodeRank, MAX_ITERATIONS] at hk ⊢
        omega
      · rw [if_neg hk]
        refine ⟨by simp, ?_, by simp, ?_, by simp⟩
        · simp [muC, nodeRank, MAX_ITERATIONS] at hk ⊢
          omega
        · intro _
          refine ⟨by simp, ?_⟩
          simp only [MAX_ITERATIONS] at hk ⊢
          omega
    · have her : execute_readonly_query (env.exec e) st.generated_sql
          = .ok rows := by
        rw [execute_readonly_query]
        split
        · rename_i e' he'
          rw [hv] at he'
          cases he'
        · rename_i safe hsafe
          rw [hv] at hsafe
          cases hsafe
          rw [hex]
      have hnode : execute_sql_node (env.exec e) st
          = some { st with execution_result := rows, execution_error := [] } := by
        rw [execute_sql_node, her]
      have hstep : step env ⟨.execute_sql, st, g, e⟩
          = { node := route_after_execute { st with
                execution_result := rows, execution_error := [] },
              st := { st with execution_result := rows, execution_error := [] },
              genCalls := g, execCalls := e + 1 } := by
        simp only [step, hnode]
      rw [hstep]
      rw [route_after_execute]
      simp only
      rw [if_pos trivial]
      refine ⟨by simp, ?_, by simp, by simp, by simp⟩
      simp [muC, nodeRank]

theorem countTerminal_succ (env : Env) (n : Nat) (c : Config) :
    countTerminal env (n + 1) c
      = (if c.node = .synthesize_answer ∨ c.node = .fail_gracefully then 1 else 0)
        + countTerminal env n (step env c) := by
  rw [countTerminal, nodeTrace, List.countP_cons]
  by_cases h : c.node = .synthesize_answer ∨ c.node = .fail_gracefully <;>
    simp [countTerminal, h, Nat.add_comm]

theorem countSC_succ (env : Env) (n : Nat) (c : Config) :
    countSC env (n + 1) c
      = (if c.node = .self_correct then 1 else 0) + countSC env n (step env c) := by
  rw [countSC, nodeTrace, List.count_cons]
  by_cases h : c.node = .self_correct <;> simp [countSC, h, Nat.add_comm]

/-- Bounded-run theorem: from any non-crashed configuration satisfying the
execute invariant, within `muC c` steps the run is at `done`, having passed
through exactly one terminal node, and the number of self-correction visits
is bounded by the remaining retry budget. -/
theorem run_bounds : ∀ (n : Nat) (env : Env) (c : Config), InvC c → c.node ≠ .crashed →
    muC c ≤ n →
    (stepN env n c).node = .done ∧
    countTerminal env n c = (if c.node = .done then 0 else 1) ∧
    countSC env n c ≤ (if c.node = .self_correct then 1 else 0)
      + (2 - min c.st.iteration_count 2) := by
  intro n
  induction n with
  | zero =>
    intro env c hInv hc hmu
    have hd : c.node = .done := by
      by_contra hdc
      have h1 : 1 ≤ nodeRank c.node := by
        rcases c with ⟨node, st, g, e⟩
        cases node <;> simp_all [nodeRank]
      have h2 : 1 ≤ muC c := by
        rw [muC, if_neg (by tauto)]
        omega
      omega
    exact ⟨hd, by simp [countTerminal, nodeTrace, hd], by simp [countSC, nodeTrace]⟩
  | succ n ih =>
    intro env c hInv hc hmu
    by_cases hd : c.node = .done
    · refine ⟨?_, ?_, ?_⟩
      · rw [stepN_done hd]; exact hd
      · rw [countTerminal, nodeTrace_done hd, if_pos hd]
        simp [List.countP_replicate]
      · rw [countSC, nodeTrace_done hd]
        simp [List.count_replicate]
    · obtain ⟨hc', hmu', hiff, hsc, hmono⟩ := step_spec env c hInv hd hc
      have hmain := ih env (step env c) (InvC_step env c) hc' (by omega)
      refine ⟨hmain.1, ?_, ?_⟩
      · rw [countTerminal_succ, hmain.2.1, if_neg hd]
        by_cases ht : c.node = .synthesize_answer ∨ c.node = .fail_gracefully
        · rw [if_pos ht, if_pos (hiff.mp ht)]
        · rw [if_neg ht, if_neg (fun hdd => ht (hiff.mpr hdd))]
      · rw [countSC_succ]
        have h3 := hmain.2.2
        by_cases hsc' : (step env c).node = .self_correct
        · obtain ⟨hk1, hk2⟩ := hsc hsc'
          have hb : countSC env n (step env c)
              ≤ 1 + (2 - min (c.st.iteration_count + 1) 2) := by
            simpa [hsc', hk1] using h3
          simp only [MAX_ITERATIONS] at hk2
          by_cases hcs : c.node = .self_correct <;> simp [hcs] <;> omega
        · have hk := hmono hsc'
          have hb : countSC env n (step env c)
              ≤ 2 - min ((step env c).st.iteration_count) 2 := by
            simpa [hsc'] using h3
          by_cases hcs : c.node = .self_correct <;> simp [hcs] <;> omega

/-! ### The approved-SQL path -/

/-- The state `run_approved_query` hands to the terminal node once validation
has succeeded with normalized statement `r`, as a function of the database
response to `r` (the only statement ever executed on this path). -/
def afterApproved (q r : Str) (res : Except Str (List Row)) : AgentStateL :=
  match res with
  | .ok rows =>
      synthesize_answer_node
        { _initial_state q with
          generated_sql := r
          execution_result := rows
          execution_error := [] }
  | .error m =>
      fail_gracefully_node
        { _initial_state q with
          generated_sql := r
          execution_error := "SQL execution failed: ".data ++ m
          iteration_count := 1 }

/-- Closed form of `run_approved_query`: validation failure leads straight to
the graceful-failure answer without consulting the database, and success
executes exactly the validated statement once. -/
def run_approved_spec (env : Env) (q approved_sql : Str) : Option AgentStateL :=
  match validate_sql approved_sql with
  | .error e =>
      some (fail_gracefully_node
        { _initial_state q with
          generated_sql := approved_sql
          execution_error := "SQL safety validation failed: ".data ++ safetyMessage e
          iteration_count := 1 })
  | .ok r => some (afterApproved q r (env.exec 0 r))

theorem run_approved_query_eq (env : Env) (q approved_sql : Str) :
    run_approved_query env q approved_sql = run_approved_spec env q approved_sql := by
  rw [run_approved_query, run_approved_spec]
  rcases hv : validate_sql approved_sql with ev | r
  · have hnode : validate_sql_node { _initial_state q with generated_sql := approved_sql }
        = { _initial_state q with
            generated_sql := approved_sql
            execution_error := "SQL safety validation failed: ".data ++ safetyMessage ev
            iteration_count := 1 } := by
      rw [validate_sql_node,
        show ({ _initial_state q with generated_sql := approved_sql }
          : AgentStateL).generated_sql = approved_sql from rfl, hv]
      rfl
    rw [hnode]
    rw [if_pos (validate_msg_ne_nil ev)]
  · have hrIdem : validate_sql r = .ok r := validate_sql_idem hv
    have hnode1 : validate_sql_node { _initial_state q with generated_sql := approved_sql }
        = { _initial_state q with generated_sql := r, execution_error := [] } := by
      rw [validate_sql_node,
        show ({ _initial_state q with generated_sql := approved_sql }
          : AgentStateL).generated_sql = approved_sql from rfl, hv]
    rw [hnode1, if_neg (by simp)]
    rcases hex : env.exec 0 r with m | rows
    · have her : execute_readonly_query (env.exec 0) r = .error (Sum.inr m) := by
        rw [execute_readonly_query]
        split
        · rename_i e' he'
          rw [hrIdem] at he'
          cases he'
        · rename_i safe hsafe
          rw [hrIdem] at hsafe
          cases hsafe
          rw [hex]
      have hnode2 : execute_sql_node (env.exec 0)
            { _initial_state q with generated_sql := r, execution_error := [] }
          = some { _initial_state q with
              generated_sql := r
              execution_error := "SQL execution failed: ".data ++ m
              iteration_count := 1 } := by
        rw [execute_sql_node,
          show ({ _initial_state q with generated_sql := r, execution_error := [] }
            : AgentStateL).generated_sql = r from rfl, her]
        rfl
      rw [hnode2]
      simp only
      rw [if_pos (exec_msg_ne_nil m), hex]
      rfl
    · have her : execute_readonly_query (env.exec 0) r = .ok rows := by
        rw [execute_readonly_query]
        split
        · rename_i e' he'
          rw [hrIdem] at he'
          cases he'
        · rename_i safe hsafe
          rw [hrIdem] at hsafe
          cases hsafe
          rw [hex]
      have hnode2 : execute_sql_node (env.exec 0)
            { _initial_state q with generated_sql := r, execution_error := [] }
          = some { _initial_state q with
              generated_sql := r
              execution_result := rows
              execution_error := [] } := by
        rw [execute_sql_node,
          show ({ _initial_state q with generated_sql := r, execution_error := [] }
            : AgentStateL).generated_sql = r from rfl, her]
      rw [hnode2]
      simp only
      rw [if_neg (by simp), hex]
      rfl

/-! ### The run with an always-invalid generator -/

/-- The error text `validate_sql_node` stores on a validation failure. -/
def vfailMsg (e : SQLSafetyErrorKind) : Str :=
  "SQL safety validation failed: ".data ++ safetyMessage e

theorem vfailMsg_ne_nil (e : SQLSafetyErrorKind) : vfailMsg e ≠ [] :=
  validate_msg_ne_nil e

/-- Shape of the run state along a generation-validation-failure loop. -/
def traceSt (env : Env) (q sql err : Str) (k : Nat) : AgentStateL :=
  { user_query := q
    schema_context := env.schema
    generated_sql := sql
    execution_result := []
    execution_error := err
    iteration_count := k
    final_answer := [] }

theorem step_validate_sc {env : Env} {st : AgentStateL} {g ex : Nat} {e : SQLSafetyErrorKind}
    (h : validate_sql st.generated_sql = .error e)
    (hk : st.iteration_count + 1 < MAX_ITERATIONS) :
    step env ⟨.validate_sql, st, g, ex⟩
      = ⟨.self_correct,
          { st with execution_error := vfailMsg e, iteration_count := st.iteration_count + 1 },
          g, ex⟩ := by
  show (⟨route_after_validate (validate_sql_node st), validate_sql_node st, g, ex⟩ : Config) = _
  have hn : validate_sql_node st
      = { st with execution_error := vfailMsg e,
                  iteration_count := st.iteration_count + 1 } := by
    rw [validate_sql_node, h]; rfl
  rw [hn, route_after_validate]
  simp only
  rw [if_pos (vfailMsg_ne_nil e), if_neg (by omega)]

theorem step_validate_fail {env : Env} {st : AgentStateL} {g ex : Nat} {e : SQLSafetyErrorKind}
    (h : validate_sql st.generated_sql = .error e)
    (hk : MAX_ITERATIONS ≤ st.iteration_count + 1) :
    step env ⟨.validate_sql, st, g, ex⟩
      = ⟨.fail_gracefully,
          { st with execution_error := vfailMsg e, iteration_count := st.iteration_count + 1 },
          g, ex⟩ := by
  show (⟨route_after_validate (validate_sql_node st), validate_sql_node st, g, ex⟩ : Config) = _
  have hn : validate_sql_node st
      = { st with execution_error := vfailMsg e,
                  iteration_count := st.iteration_count + 1 } := by
    rw [validate_sql_node, h]; rfl
  rw [hn, route_after_validate]
  simp only
  rw [if_pos (vfailMsg_ne_nil e), if_pos (by omega)]

theorem stepN_add (env : Env) : ∀ (m n : Nat) (c : Config),
    stepN env (m + n) c = stepN env n (stepN env m c) := by
  intro m
  induction m with
  | zero => intro n c; rw [Nat.zero_add]; rfl
  | succ m ih =>
    intro n c
    rw [Nat.succ_add]
    show stepN env (m + n) (step env c) = _
    rw [ih]
    rfl

theorem nodeTrace_add (env : Env) : ∀ (m n : Nat) (c : Config),
    nodeTrace env (m + n) c = nodeTrace env m c ++ nodeTrace env n (stepN env m c) := by
  intro m
  induction m with
  | zero => intro n c; rw [Nat.zero_add]; rfl
  | succ m ih =>
    intro n c
    rw [Nat.succ_add]
    show (c.node :: nodeTrace env (m + n) (step env c)) = _
    rw [ih]
    rfl

/-- First eight steps of a run whose generator always fails validation. -/
theorem trace8_all_invalid (env : Env) (q : Str) (e0 e1 e2 : SQLSafetyErrorKind)
    (h0 : validate_sql (env.gen 0) = .error e0)
    (h1 : validate_sql (env.gen 1) = .error e1)
    (h2 : validate_sql (env.gen 2) = .error e2) :
    nodeTrace env 8 (initConfig q)
      = [.retrieve_schema, .generate_sql, .validate_sql, .self_correct, .validate_sql,
         .self_correct, .validate_sql, .fail_gracefully] ∧
    stepN env 8 (initConfig q)
      = ⟨.done, fail_gracefully_node (traceSt env q (env.gen 2) (vfailMsg e2) 3), 3, 0⟩ := by
  have k1 : step env (initConfig q) = ⟨.generate_sql, traceSt env q [] [] 0, 0, 0⟩ := rfl
  have k2 : step env ⟨.generate_sql, traceSt env q [] [] 0, 0, 0⟩
      = ⟨.validate_sql, traceSt env q (env.gen 0) [] 0, 1, 0⟩ := rfl
  have k3 : step env ⟨.validate_sql, traceSt env q (env.gen 0) [] 0, 1, 0⟩
      = ⟨.self_correct, traceSt env q (env.gen 0) (vfailMsg e0) 1, 1, 0⟩ := by
    rw [step_validate_sc h0 (by simp [traceSt, MAX_ITERATIONS])]
    rfl
  have k4 : step env ⟨.self_correct, traceSt env q (env.gen 0) (vfailMsg e0) 1, 1, 0⟩
      = ⟨.validate_sql, traceSt env q (env.gen 1) (vfailMsg e0) 1, 2, 0⟩ := rfl
  have k5 : step env ⟨.validate_sql, traceSt env q (env.gen 1) (vfailMsg e0) 1, 2, 0⟩
      = ⟨.self_correct, traceSt env q (env.gen 1) (vfailMsg e1) 2, 2, 0⟩ := by
    rw [step_validate_sc h1 (by simp [traceSt, MAX_ITERATIONS])]
    rfl
  have k6 : step env ⟨.self_correct, traceSt env q (env.gen 1) (vfailMsg e1) 2, 2, 0⟩
      = ⟨.validate_sql, traceSt env q (env.gen 2) (vfailMsg e1) 2, 3, 0⟩ := rfl
  have k7 : step env ⟨.validate_sql, traceSt env q (env.gen 2) (vfailMsg e1) 2, 3, 0⟩
      = ⟨.fail_gracefully, traceSt env q (env.gen 2) (vfailMsg e2) 3, 3, 0⟩ := by
    rw [step_validate_fail h2 (by simp [traceSt, MAX_ITERATIONS])]
    rfl
  have k8 : step env ⟨.fail_gracefully, traceSt env q (env.gen 2) (vfailMsg e2) 3, 3, 0⟩
      = ⟨.done, fail_gracefully_node (traceSt env q (env.gen 2) (vfailMsg e2) 3), 3, 0⟩ := rfl
  constructor
  · show (initConfig q).node :: nodeTrace env 7 (step env (initConfig q)) = _
    rw [k1]
    show _ :: _ :: nodeTrace env 6 (step env _) = _
    rw [k2]
    show _ :: _ :: _ :: nodeTrace env 5 (step env _) = _
    rw [k3]
    show _ :: _ :: _ :: _ :: nodeTrace env 4 (step env _) = _
    rw [k4]
    show _ :: _ :: _ :: _ :: _ :: nodeTrace env 3 (step env _) = _
    rw [k5]
    show _ :: _ :: _ :: _ :: _ :: _ :: nodeTrace env 2 (step env _) = _
    rw [k6]
    show _ :: _ :: _ :: _ :: _ :: _ :: _ :: nodeTrace env 1 (step env _) = _
    rw [k7]
    rfl
  · show step env (step env (step env (step env (step env (step env (step env
      (step env (initConfig q)))))))) = _
    rw [k1, k2, k3, k4, k5, k6, k7, k8]

/-- Full-run corollary for an always-invalid generator: two self-correction
visits, one graceful failure, no synthesis, counter ends at the ceiling. -/
theorem run_agent_all_invalid (env : Env) (q : Str)
    (hgen : ∀ k, (validate_sql (env.gen k)).toOption = none) :
    countSC env 27 (initConfig q) = MAX_ITERATIONS - 1 ∧
    countTerminal env 27 (initConfig q) = 1 ∧
    (nodeTrace env 27 (initConfig q)).count .fail_gracefully = 1 ∧
    (nodeTrace env 27 (initConfig q)).count .synthesize_answer = 0 ∧
    (stepN env 27 (initConfig q)).node = .done ∧
    (stepN env 27 (initConfig q)).st.iteration_count = MAX_ITERATIONS := by
  have herr : ∀ k, ∃ e, validate_sql (env.gen k) = .error e := by
    intro k
    rcases hv : validate_sql (env.gen k) with e | r
    · exact ⟨e, rfl⟩
    · have := hgen k
      rw [hv] at this
      simp [Except.toOption] at this
  obtain ⟨e0, h0⟩ := herr 0
  obtain ⟨e1, h1⟩ := herr 1
  obtain ⟨e2, h2⟩ := herr 2
  obtain ⟨ht, hs⟩ := trace8_all_invalid env q e0 e1 e2 h0 h1 h2
  have hdone : (stepN env 8 (initConfig q)).node = .done := by rw [hs]
  have htr : nodeTrace env 27 (initConfig q)
      = [.retrieve_schema, .generate_sql, .validate_sql, .self_correct, .validate_sql,
         .self_correct, .validate_sql, .fail_gracefully] ++ List.replicate 19 .done := by
    rw [show (27 : Nat) = 8 + 19 from rfl, nodeTrace_add, ht, nodeTrace_done hdone]
  have hsN : stepN env 27 (initConfig q) = stepN env 8 (initConfig q) := by
    rw [show (27 : Nat) = 8 + 19 from rfl, stepN_add, stepN_done hdone]
  refine ⟨?_, ?_, ?_, ?_, ?_, ?_⟩
  · show (nodeTrace env 27 (initConfig q)).count .self_correct = _
    rw [htr]; decide
  · show (nodeTrace env 27 (initConfig q)).countP _ = _
    rw [htr]; decide
  · rw [htr]; decide
  · rw [htr]; decide
  · rw [hsN]; exact hdone
  · rw [hsN, hs]; rfl

/-! ### Ranking facts -/

theorem rank_tables_perm (table_names keywords : List Str) :
    (_rank_tables table_names keywords).Perm table_names :=
  List.perm_insertionSort _ _

theorem rank_tables_sorted (table_names keywords : List Str) :
    List.Pairwise (rankRel keywords) (_rank_tables table_names keywords) :=
  List.sorted_insertionSort _ _

theorem rank_tables_ne_nil {table_names keywords : List Str} (h : table_names ≠ []) :
    _rank_tables table_names keywords ≠ [] := by
  intro hc
  apply h
  have hp := List.perm_insertionSort (rankRel keywords) table_names
  rw [show List.insertionSort (rankRel keywords) table_names
      = _rank_tables table_names keywords from rfl, hc] at hp
  exact hp.symm.eq_nil

/-! ### Concrete environments used in witnesses and counterexamples -/

/-- A run environment whose generator always produces an empty string. -/
def env0 : Env :=
  { schema := [], gen := fun _ => [], exec := fun _ _ => .ok [] }

/-- A run environment whose generator always produces one valid statement. -/
def env1 : Env :=
  { schema := [], gen := fun _ => "SELECT 1 LIMIT 1".data, exec := fun _ _ => .ok [] }

/-- A run environment whose generator always produces a statement that fails
validation. -/
def envBad : Env :=
  { schema := [], gen := fun _ => "DROP TABLE t".data, exec := fun _ _ => .ok [] }

/-! ### Claim theorems -/

/-- C1: on every path of the workflow, a statement reaching query execution
has just passed the safety validator: in the automatic run, the execute node
is entered only from a successful validate node whose output is the carried
statement, and that statement re-validates to itself (so the re-validation
inside `execute_readonly_query` executes the identical string); in the
approved-SQL run, `run_approved_query` equals a closed form in which the
database is consulted only on the validator's output, and a validation
failure reaches the graceful-failure answer without any execution. -/
theorem claim_c1_validation_precedes_execution (env : Env) (q : Str) (n : Nat)
    (approved_sql r : Str) :
    ((stepN env (n + 1) (initConfig q)).node = .execute_sql →
      (stepN env n (initConfig q)).node = .validate_sql ∧
      validate_sql ((stepN env n (initConfig q)).st.generated_sql)
        = .ok ((stepN env (n + 1) (initConfig q)).st.generated_sql) ∧
      validate_sql ((stepN env (n + 1) (initConfig q)).st.generated_sql)
        = .ok ((stepN env (n + 1) (initConfig q)).st.generated_sql)) ∧
    run_approved_query env q approved_sql = run_approved_spec env q approved_sql ∧
    (validate_sql approved_sql = .ok r → validate_sql r = .ok r) := by
  refine ⟨?_, run_approved_query_eq env q approved_sql, fun h => validate_sql_idem h⟩
  intro hex
  rw [stepN_succ'] at hex ⊢
  obtain ⟨h1, h2, -⟩ := step_execute_shape hex
  exact ⟨h1, h2, validate_sql_idem h2⟩

theorem claim_c1_witness :
    (stepN env1 (2 + 1) (initConfig [])).node = .execute_sql ∧
    validate_sql ("SELECT 1 LIMIT 1".data) = .ok ("SELECT 1 LIMIT 1".data) ∧
    ((stepN env1 2 (initConfig [])).node = .validate_sql ∧
      validate_sql ((stepN env1 2 (initConfig [])).st.generated_sql)
        = .ok ((stepN env1 (2 + 1) (initConfig [])).st.generated_sql) ∧
      validate_sql ((stepN env1 (2 + 1) (initConfig [])).st.generated_sql)
        = .ok ((stepN env1 (2 + 1) (initConfig [])).st.generated_sql)) ∧
    validate_sql ("SELECT 1 LIMIT 1".data) = .ok ("SELECT 1 LIMIT 1".data) := by
  have h := claim_c1_validation_precedes_execution env1 [] 2
    ("SELECT 1 LIMIT 1".data) ("SELECT 1 LIMIT 1".data)
  exact ⟨by decide, by decide, h.1 (by decide), h.2.2 (by decide)⟩

/-- C2: for every environment (hence every sequence of generator outputs and
database responses, including unbounded consecutive failures), the automatic
run is at the END node after 27 steps and stays there, visits the
self-correction node at most `MAX_ITERATIONS` times, and passes through
exactly one terminal node (synthesize or graceful failure). -/
theorem claim_c2_bounded_termination (env : Env) (q : Str) (n : Nat) (h : 27 ≤ n) :
    (stepN env n (initConfig q)).node = .done ∧
    countSC env n (initConfig q) ≤ MAX_ITERATIONS ∧
    countTerminal env n (initConfig q) = 1 := by
  have hmu : muC (initConfig q) ≤ n := by
    have h27 : muC (initConfig q) = 27 := by
      simp [muC, initConfig, _initial_state, nodeRank]
    omega
  have hm := run_bounds n env (initConfig q) (InvC_initConfig q) (by simp [initConfig]) hmu
  refine ⟨hm.1, ?_, ?_⟩
  · have h2 := hm.2.2
    have e1 : (if (initConfig q).node = Node.self_correct then 1 else 0) = 0 := by
      simp [initConfig]
    have e2 : (initConfig q).st.iteration_count = 0 := rfl
    rw [e1, e2] at h2
    simp only [MAX_ITERATIONS]
    omega
  · have h2 := hm.2.1
    simpa [initConfig] using h2

theorem claim_c2_witness :
    27 ≤ 27 ∧
    ((stepN env0 27 (initConfig [])).node = .done ∧
      countSC env0 27 (initConfig []) ≤ MAX_ITERATIONS ∧
      countTerminal env0 27 (initConfig []) = 1) :=
  ⟨by decide, claim_c2_bounded_termination env0 [] 27 (by decide)⟩

/-- C3 counterexample: with the generator constantly producing
`DROP TABLE t` (which always fails validation, as the first conjunct
witnesses), the automatic run visits the self-correction node exactly 2
times, not `MAX_ITERATIONS = 3` times as the claim states: routing sends the
run to graceful failure as soon as the incremented counter reaches the
ceiling, so only `MAX_ITERATIONS - 1` corrections happen. -/
theorem claim_c3_counterexample :
    (validate_sql (envBad.gen 0)).toOption = none ∧
    countSC envBad 27 (initConfig []) = 2 ∧
    MAX_ITERATIONS = 3 ∧
    countSC envBad 27 (initConfig []) ≠ MAX_ITERATIONS := by decide

/-- C3 (amended): if the generator always returns a statement that fails
validation, the automatic run terminates after exactly `MAX_ITERATIONS - 1`
self-correction attempts (the retry counter reaching `MAX_ITERATIONS`),
reaches the graceful-failure terminal exactly once and the synthesize
terminal never, and never loops further. -/
theorem claim_c3_amended (env : Env) (q : Str)
    (hgen : ∀ k, (validate_sql (env.gen k)).toOption = none) :
    countSC env 27 (initConfig q) = MAX_ITERATIONS - 1 ∧
    countTerminal env 27 (initConfig q) = 1 ∧
    (nodeTrace env 27 (initConfig q)).count .fail_gracefully = 1 ∧
    (nodeTrace env 27 (initConfig q)).count .synthesize_answer = 0 ∧
    (stepN env 27 (initConfig q)).node = .done ∧
    (stepN env 27 (initConfig q)).st.iteration_count = MAX_ITERATIONS :=
  run_agent_all_invalid env q hgen

theorem claim_c3_witness :
    (validate_sql (envBad.gen 5)).toOption = none ∧
    (countSC envBad 27 (initConfig [])  = MAX_ITERATIONS - 1 ∧
      countTerminal envBad 27 (initConfig []) = 1 ∧
      (nodeTrace envBad 27 (initConfig [])).count .fail_gracefully = 1 ∧
      (nodeTrace envBad 27 (initConfig [])).count .synthesize_answer = 0 ∧
      (stepN envBad 27 (initConfig [])).node = .done ∧
      (stepN envBad 27 (initConfig [])).st.iteration_count = MAX_ITERATIONS) :=
  ⟨by decide, claim_c3_amended envBad []
    (fun _ => (by decide : (validate_sql ("DROP TABLE t".data)).toOption = none))⟩

/-- C4: every statement returned by a successful validation contains at most
one top-level statement: after removing a single optional trailing
semicolon, no semicolon remains. -/
theorem claim_c4_single_statement (s r : Str) (h : validate_sql s = .ok r) :
    ((if r.getLast? = some ';' then r.dropLast else r).contains ';') = false := by
  obtain ⟨hr, hne, hmul, -, -, -⟩ := validate_sql_ok_elim h
  have hstrip : pyStrip r = r := by rw [hr]; exact pyStrip_strip_comments s
  simp only [_contains_multiple_statements, hstrip] at hmul
  rw [if_neg hne] at hmul
  by_cases hl : r.getLast? = some ';'
  · rw [if_pos hl] at hmul ⊢
    rw [contains_eq_false_iff] at hmul ⊢
    exact fun hm => hmul (mem_pyRStrip_of_not_space (by decide) hm)
  · rw [if_neg hl] at hmul ⊢
    exact hmul

theorem claim_c4_witness :
    validate_sql ("SELECT 1 LIMIT 1;".data) = .ok ("SELECT 1 LIMIT 1;".data) ∧
    ((if ("SELECT 1 LIMIT 1;".data).getLast? = some ';'
        then ("SELECT 1 LIMIT 1;".data).dropLast
        else ("SELECT 1 LIMIT 1;".data)).contains ';') = false :=
  ⟨by decide, claim_c4_single_statement ("SELECT 1 LIMIT 1;".data)
    ("SELECT 1 LIMIT 1;".data) (by decide)⟩

/-- C5: with respect to the result-bounding rule, a statement passing the
earlier checks is accepted iff a whole word `limit` occurs anywhere in the
comment-stripped statement or the statement starts with a single aggregate
projection; in particular `SELECT 1` is rejected as unbounded,
`SELECT 1 LIMIT 10` is accepted unchanged, and `SELECT COUNT(*) FROM t` is
accepted without a bounding clause. -/
theorem claim_c5_bounding_rule :
    (∀ s : Str, _strip_comments s ≠ [] →
      _contains_multiple_statements (_strip_comments s) = false →
      ("select".data).isPrefixOf ((_strip_comments s).map Char.toLower) = true →
      bannedUsed (_strip_comments s) = [] →
      (validate_sql s = .ok (_strip_comments s) ↔
        (hasLimitWord (_strip_comments s) = true ∨
          matchAggregateOnly (_strip_comments s) = true))) ∧
    validate_sql ("SELECT 1".data) = .error .unboundedResult ∧
    validate_sql ("SELECT 1 LIMIT 10".data) = .ok ("SELECT 1 LIMIT 10".data) ∧
    validate_sql ("SELECT COUNT(*) FROM t".data) = .ok ("SELECT COUNT(*) FROM t".data) :=
  ⟨fun _ h1 h2 h3 h4 => validate_sql_bounding_iff h1 h2 h3 h4, by decide, by decide, by decide⟩

theorem claim_c5_witness :
    (_strip_comments ("SELECT 1 LIMIT 10".data) ≠ [] ∧
      _contains_multiple_statements (_strip_comments ("SELECT 1 LIMIT 10".data)) = false ∧
      ("select".data).isPrefixOf
        ((_strip_comments ("SELECT 1 LIMIT 10".data)).map Char.toLower) = true ∧
      bannedUsed (_strip_comments ("SELECT 1 LIMIT 10".data)) = []) ∧
    (validate_sql ("SELECT 1 LIMIT 10".data)
        = .ok (_strip_comments ("SELECT 1 LIMIT 10".data)) ↔
      (hasLimitWord (_strip_comments ("SELECT 1 LIMIT 10".data)) = true ∨
        matchAggregateOnly (_strip_comments ("SELECT 1 LIMIT 10".data)) = true)) :=
  ⟨⟨by decide, by decide, by decide, by decide⟩,
    claim_c5_bounding_rule.1 ("SELECT 1 LIMIT 10".data)
      (by decide) (by decide) (by decide) (by decide)⟩

/-- C6 counterexample: `validate_sql "DROP TABLE t"` does not fail with the
banned-keyword error identifying `drop`; the only-SELECT check fires first
and the call fails with the not-a-SELECT error. -/
theorem claim_c6_counterexample :
    validate_sql ("DROP TABLE t".data) ≠ .error (.bannedKeyword ["drop".data]) ∧
    validate_sql ("DROP TABLE t".data) = .error .notSelect := by decide

/-- C6 (amended): `validate_sql "DROP TABLE t"` fails with the
only-SELECT-statements error (the SELECT-prefix check precedes keyword
screening); the banned-keyword error identifying `drop` is produced for a
SELECT statement containing `drop` as a whole word, and the matching is
whole-word rather than substring: an identifier merely containing a banned
keyword passes the keyword check. -/
theorem claim_c6_amended :
    validate_sql ("DROP TABLE t".data) = .error .notSelect ∧
    validate_sql ("SELECT drop FROM t LIMIT 1".data)
      = .error (.bannedKeyword ["drop".data]) ∧
    validate_sql ("SELECT dropped_at FROM t LIMIT 5".data)
      = .ok ("SELECT dropped_at FROM t LIMIT 5".data) := by decide

/-- C7 counterexample: with no keywords (empty question) both tables score
zero, and the ranking puts the shorter name first, so it is not ordered by
`(score descending, name length descending)` as the claim states: the order
violates the length-descending tie-break. -/
theorem claim_c7_counterexample :
    _rank_tables ["ab".data, "a".data] [] = ["a".data, "ab".data] ∧
    ¬ List.Pairwise
        (fun a b : Str => overlap [] b < overlap [] a ∨
          (overlap [] a = overlap [] b ∧ b.length ≤ a.length))
        (_rank_tables ["ab".data, "a".data] []) := by decide

/-- C7 (amended): for every question text and list of table names, the
ranking is a permutation of the tables ordered by keyword-overlap score
descending with ties broken by name length ascending (and further ties in
input order); it is deterministic because it is a pure function of the
question keywords and the table-name snapshot. -/
theorem claim_c7_amended (user_query : Str) (table_names : List Str) :
    (rankForQuestion user_query table_names).Perm table_names ∧
    List.Pairwise (rankRel (_extract_keywords user_query))
      (rankForQuestion user_query table_names) :=
  ⟨rank_tables_perm table_names (_extract_keywords user_query),
    rank_tables_sorted table_names (_extract_keywords user_query)⟩

/-- C8 counterexample: with table names fetched in alphabetical order
`[aaa, z]` and a question with no matching keywords (both overlaps zero, as
the first conjuncts witness), the selection takes `[z]`, not the first table
of the canonical alphabetical order: the zero-score ranking orders by name
length ascending, and the literal fallback branch is unreachable for a
non-empty table list. -/
theorem claim_c8_counterexample :
    overlap [] ("aaa".data) = 0 ∧ overlap [] ("z".data) = 0 ∧
    selectTables ["aaa".data, "z".data] [] 1 = ["z".data] ∧
    selectTables ["aaa".data, "z".data] [] 1 ≠ (["aaa".data, "z".data]).take 1 := by decide

/-- C8 (amended): when no table scores above zero, the selection still does
not fail: for a non-empty table list it takes the first N of the ranked
list, which under all-zero scores is the input permuted into name-length
ascending order; the alphabetical-prefix fallback branch is taken only when
the table list itself is empty. -/
theorem claim_c8_amended (table_names keywords : List Str) (max_tables : Nat)
    (hz : ∀ t ∈ table_names, overlap keywords t = 0) (hne : table_names ≠ []) :
    selectTables table_names keywords max_tables
      = (_rank_tables table_names keywords).take max_tables ∧
    (_rank_tables table_names keywords).Perm table_names ∧
    List.Pairwise (fun a b : Str => a.length ≤ b.length)
      (_rank_tables table_names keywords) := by
  refine ⟨?_, rank_tables_perm table_names keywords, ?_⟩
  · simp only [selectTables]
    rw [if_pos (rank_tables_ne_nil hne)]
  · have hs := rank_tables_sorted table_names keywords
    refine List.Pairwise.imp_of_mem ?_ hs
    intro a b ha hb hr
    have ha' : a ∈ table_names := (rank_tables_perm table_names keywords).mem_iff.mp ha
    have hb' : b ∈ table_names := (rank_tables_perm table_names keywords).mem_iff.mp hb
    rcases hr with h1 | h1
    · rw [hz a ha', hz b hb'] at h1
      omega
    · exact h1.2

theorem claim_c8_witness :
    ((∀ t ∈ [("aaa".data : Str), "z".data], overlap [] t = 0) ∧
      ([("aaa".data : Str), "z".data] ≠ [])) ∧
    (selectTables ["aaa".data, "z".data] [] 1
        = (_rank_tables ["aaa".data, "z".data] []).take 1 ∧
      (_rank_tables ["aaa".data, "z".data] []).Perm ["aaa".data, "z".data] ∧
      List.Pairwise (fun a b : Str => a.length ≤ b.length)
        (_rank_tables ["aaa".data, "z".data] [])) :=
  ⟨⟨by decide, by decide⟩,
    claim_c8_amended ["aaa".data, "z".data] [] 1 (by decide) (by decide)⟩

/-- C9: `run_approved_query` never invokes the generator (its result depends
only on the executor part of the environment), re-validates the supplied
statement with the same `validate_sql` before any execution (the closed-form
equation), executes only the validator's output and only when validation
passes (that output itself re-validating unchanged), and on a validation
failure returns the graceful-failure answer without consulting the database
and without looping. -/
theorem claim_c9_approved_path (env env2 : Env) (q approved_sql r : Str)
    (e : SQLSafetyErrorKind) :
    (env.exec = env2.exec →
      run_approved_query env q approved_sql = run_approved_query env2 q approved_sql) ∧
    run_approved_query env q approved_sql = run_approved_spec env q approved_sql ∧
    (validate_sql approved_sql = .ok r →
      validate_sql r = .ok r ∧
      run_approved_query env q approved_sql
        = some (afterApproved q r (env.exec 0 r))) ∧
    (validate_sql approved_sql = .error e →
      run_approved_query env q approved_sql
        = some (fail_gracefully_node
            { _initial_state q with
              generated_sql := approved_sql
              execution_error := vfailMsg e
              iteration_count := 1 })) := by
  refine ⟨?_, run_approved_query_eq env q approved_sql, ?_, ?_⟩
  · intro hx
    rw [run_approved_query_eq, run_approved_query_eq, run_approved_spec, run_approved_spec, hx]
  · intro h
    refine ⟨validate_sql_idem h, ?_⟩
    rw [run_approved_query_eq, run_approved_spec, h]
  · intro h
    rw [run_approved_query_eq, run_approved_spec, h]
    rfl

theorem claim_c9_witness :
    (run_approved_query env1 [] ("SELECT 1 LIMIT 1".data)
      = run_approved_query env1 [] ("SELECT 1 LIMIT 1".data)) ∧
    validate_sql ("SELECT 1 LIMIT 1".data) = .ok ("SELECT 1 LIMIT 1".data) ∧
    (validate_sql ("SELECT 1 LIMIT 1".data) = .ok ("SELECT 1 LIMIT 1".data) ∧
      run_approved_query env1 [] ("SELECT 1 LIMIT 1".data)
        = some (afterApproved [] ("SELECT 1 LIMIT 1".data)
            (env1.exec 0 ("SELECT 1 LIMIT 1".data)))) ∧
    validate_sql ("DROP TABLE t".data) = .error .notSelect ∧
    run_approved_query env1 [] ("DROP TABLE t".data)
      = some (fail_gracefully_node
          { _initial_state [] with
            generated_sql := ("DROP TABLE t".data)
            execution_error := vfailMsg .notSelect
            iteration_count := 1 }) := by
  have hA := claim_c9_approved_path env1 env1 [] ("SELECT 1 LIMIT 1".data)
    ("SELECT 1 LIMIT 1".data) .notSelect
  have hB := claim_c9_approved_path env1 env1 [] ("DROP TABLE t".data) [] .notSelect
  exact ⟨hA.1 rfl, by decide, hA.2.2.1 (by decide), by decide, hB.2.2.2 (by decide)⟩

/-- C10: validation is idempotent on its successes: whenever `validate_sql s`
returns `r`, validating `r` succeeds and returns `r` unchanged (comment
stripping and trimming reach a fixed point, and the accepted statement
re-passes every policy check). -/
theorem claim_c10_idempotent (s r : Str) (h : validate_sql s = .ok r) :
    validate_sql r = .ok r :=
  validate_sql_idem h

theorem claim_c10_witness :
    validate_sql ("  SELECT 1 /* c */ LIMIT 2".data) = .ok ("SELECT 1   LIMIT 2".data) ∧
    validate_sql ("SELECT 1   LIMIT 2".data) = .ok ("SELECT 1   LIMIT 2".data) :=
  ⟨by decide, claim_c10_idempotent ("  SELECT 1 /* c */ LIMIT 2".data)
    ("SELECT 1   LIMIT 2".data) (by decide)⟩
